import Mathlib

/-!
Shallow embedding of the Qucs netlist checker and subcircuit expander
(`src/qucs-core/src/check_netlist.cpp`).

Linked lists of the C code become Lean `List`s; `NULL`-able strings become
`Option String`; the C `double` magnitudes become `ℚ`, with the one
transcendental operation (`pow (10.0, x)` in the decibel branch of
`checker_evaluate_scale`) abstracted as an explicit function argument
`tenPow : ℚ → ℚ`.  Mutation through pointers becomes explicit state passing:
functions that mutate the definition list return the updated list.  Recursive
procedures whose termination is not structural (cycle detection, subcircuit
flattening, nonlinearity counting) take an explicit fuel argument and return
`none` when the fuel runs out or when the C code would dereference a NULL
pointer (a crash); `none` therefore models undefined behaviour of the source.
-/

namespace Qucs

/-- Tag constants of the expression library. Modelled from the spec:
`equation.h` (`eqn::TAG_DOUBLE`, `eqn::TAG_VECTOR`) is not part of the
sources; only distinctness of the tags matters to the checker. -/
def TAG_UNKNOWN : Nat := 0

/-- Tag for scalar sweep variables (see `TAG_UNKNOWN`). -/
def TAG_DOUBLE : Nat := 1

/-- Tag for vector-valued sweep lists (see `TAG_UNKNOWN`). -/
def TAG_VECTOR : Nat := 2

/-- One property value (`struct value_t`): either a numeric magnitude with
optional scale/unit suffixes, or an identifier reference. The `next` chain of
the C struct is modelled by keeping values in a `List` inside `pair_t`. -/
structure value_t where
  value : ℚ := 0
  ident : Option String := none
  scale : Option String := none
  unit  : Option String := none
  var   : Nat := TAG_UNKNOWN
  subst : Bool := false
deriving Repr

/-- A key/value property (`struct pair_t`); `values` is the non-empty chain
starting at the C `pair->value`. -/
structure pair_t where
  key : String
  values : List value_t
deriving Repr

/-- A node reference (`struct node_t`). `node` is `Option` because the
expander intentionally blanks (`NULL`s) node names of copies to mark nodes
that an enclosing expansion level must still translate. -/
structure node_t where
  node : Option String
  xlate : Option String := none
  xlatenr : Nat := 0
deriving Repr

/-- A property descriptor of the static component catalog
(`struct property_t`).  Modelled from the spec: `qucsdefs.h` and the
`PROP_*` macros are not part of the sources; a descriptor carries the key,
numeric-vs-identifier kind, list-allowed flag, integer-only flag and an
optional numeric range, exactly the data the checker reads. -/
structure property_t where
  key : String
  isValue : Bool := true
  isList : Bool := false
  isInt : Bool := false
  hasRange : Bool := false
  lo : ℚ := 0
  hi : ℚ := 0
deriving Repr

/-- A catalog entry (`struct define_t`).  Modelled from the spec:
`qucsdefs.h` is not part of the sources.  `nodes` is the required node
count, `PROP_NODES` (= -1) meaning "one or more".  The terminating
`PROP_NO_PROP` sentinels of the C arrays are the ends of the lists. -/
structure define_t where
  type : String
  nodes : Int
  action : Nat
  required : List property_t := []
  optional : List property_t := []
  nonlinear : Nat := 0
  substrate : Nat := 0
deriving Repr

/-- Variadic node-count sentinel (`PROP_NODES`); modelled from the spec. -/
def PROP_NODES : Int := -1

/-- Action flag value of catalog entries (`PROP_ACTION`); modelled from the
spec. -/
def PROP_ACTION : Nat := 1

/-- Component (non-action) flag value (`PROP_COMPONENT`); modelled from the
spec. -/
def PROP_COMPONENT : Nat := 0

/-- One netlist statement (`struct definition_t`).  `sub` holds the body of
a subcircuit template (`Def`) definition; `define` is the back-reference to
the resolved catalog entry; `subcircuit` names the template a flattened
copy came from. -/
structure definition_t where
  type : String
  inst : String
  line : Nat := 0
  nodes : List node_t := []
  pairs : List pair_t := []
  action : Nat := 0
  nonlinear : Nat := 0
  substrate : Nat := 0
  nodeset : Bool := false
  duplicate : Bool := false
  copy : Bool := false
  ncount : Nat := 0
  subcircuit : Option String := none
  define : Option define_t := none
  sub : List definition_t := []
deriving Repr

/-- List of available microstrip component types (`strip_available`). -/
def strip_available : List String :=
  ["MLIN", "MCORN", "MMBEND", "MSTEP", "MOPEN", "MGAP", "MCOUPLED", "MTEE",
   "MCROSS", "MVIA", "CLIN"]

/-- Replaces the element at index `n`, leaving the list unchanged when the
index is out of range (list-surgery helper for the pointer mutations of the
C code). -/
def modifyIdx (f : α → α) : Nat → List α → List α
  | _, [] => []
  | 0, a :: l => f a :: l
  | n + 1, a :: l => a :: modifyIdx f n l

/-- `checker_count_nodes` (the one-argument overload): number of nodes of a
definition line. -/
def checker_count_nodes (def_ : definition_t) : Nat :=
  def_.nodes.length

/-- `checker_find_definition`: first catalog entry matching type and action
class, if any. -/
def checker_find_definition (avail : List define_t) (type : String)
    (action : Nat) : Option define_t :=
  avail.find? (fun d => d.type = type && d.action = action)

/-- `checker_find_property`: number of properties with the given key. -/
def checker_find_property (key : String) (pairs : List pair_t) : Nat :=
  pairs.countP (fun p => p.key = key)

/-- `checker_is_property`: whether the key is a required or optional
property of the catalog entry. -/
def checker_is_property (available : define_t) (key : String) : Bool :=
  available.required.any (fun p => p.key = key) ||
  available.optional.any (fun p => p.key = key)

/-- The switch of `checker_evaluate_scale` on the scale characters: returns
(rest of the scale string, possibly dB-converted value, power-of-ten
factor). -/
def scaleStep (tenPow : ℚ → ℚ) (val : ℚ) :
    List Char → (List Char × ℚ × ℚ)
  | 'T' :: r => (r, val, (10 : ℚ) ^ (12 : ℕ))
  | 'G' :: r => (r, val, (10 : ℚ) ^ (9 : ℕ))
  | 'M' :: r => (r, val, (10 : ℚ) ^ (6 : ℕ))
  | 'k' :: r => (r, val, (10 : ℚ) ^ (3 : ℕ))
  | 'm' :: r => (r, val, ((10 : ℚ) ^ (3 : ℕ))⁻¹)
  | 'u' :: r => (r, val, ((10 : ℚ) ^ (6 : ℕ))⁻¹)
  | 'n' :: r => (r, val, ((10 : ℚ) ^ (9 : ℕ))⁻¹)
  | 'p' :: r => (r, val, ((10 : ℚ) ^ (12 : ℕ))⁻¹)
  | 'f' :: r => (r, val, ((10 : ℚ) ^ (15 : ℕ))⁻¹)
  | 'a' :: r => (r, val, ((10 : ℚ) ^ (18 : ℕ))⁻¹)
  | 'd' :: 'B' :: 'm' :: r => (r, tenPow (val / 10), ((10 : ℚ) ^ (3 : ℕ))⁻¹)
  | 'd' :: 'B' :: r => (r, tenPow (val / 10), 1)
  | 'd' :: r => (r, val, 1)
  | r => (r, val, 1)

/-- `checker_evaluate_scale`: folds the unit-scale prefix of a numeric value
into the magnitude.  The prefix character selects a power-of-ten factor; a
`d` followed by `B` converts from decibels via `10^(value/10)` (the
`tenPow` argument), an additional `m` selecting dBm semantics through a
`1e-3` factor.  Whatever remains of the scale string becomes the residual
unit; the scale is consumed.  The C function always returns non-zero. -/
def checker_evaluate_scale (tenPow : ℚ → ℚ) (v : value_t) : value_t :=
  match v.scale with
  | none => { v with value := v.value * 1 }
  | some s =>
    let res := scaleStep tenPow v.value s.data
    { v with
      value := res.2.1 * res.2.2
      scale := none
      unit := if res.1 = [] then v.unit else some (String.mk res.1) }

/-- Loop of `checker_count_definition`: walks the list with the running
match count, marking every match beyond the first. -/
def countDefGo (type instName : String) :
    List definition_t → Nat → (Nat × List definition_t)
  | [], count => (count, [])
  | d :: ds, count =>
    if d.type = type ∧ d.inst = instName then
      let d1 := if count + 1 > 1 then { d with duplicate := true } else d
      let r := countDefGo type instName ds (count + 1)
      (r.1, d1 :: r.2)
    else
      let r := countDefGo type instName ds count
      (r.1, d :: r.2)

/-- `checker_count_definition`: counts definitions with the given type and
instance, marking every occurrence beyond the first as duplicate while
counting.  Returns the count together with the updated list (the C function
marks through the list pointers). -/
def checker_count_definition (root : List definition_t)
    (type instName : String) : Nat × List definition_t :=
  countDefGo type instName root 0

/-- Per-pair test of `checker_find_variable`: the pair's head value, when
the key matches and the value's identifier equals `ident`. -/
def findVarPair (key ident : String) (p : pair_t) : Option value_t :=
  if p.key = key then
    match p.values.head? with
    | some v => if v.ident = some ident then some v else none
    | none => none
  else none

/-- `checker_find_variable`: first value of a `key` property of a
definition of the given `type` anywhere in the list whose identifier equals
`ident`. -/
def checker_find_variable (root : List definition_t) (type key ident : String) :
    Option value_t :=
  root.findSome? (fun d =>
    if d.type = type then d.pairs.findSome? (findVarPair key ident) else none)

/-- Marks the head value found by `checker_find_variable` with the given
variable tag (the write the C code performs through the returned pointer in
resolution domain 1).  Helper acting on one pair list; returns the updated
pairs and whether the value was found there. -/
def markPairValue (key ident : String) (tag : Nat) :
    List pair_t → (List pair_t × Bool)
  | [] => ([], false)
  | p :: ps =>
    if p.key = key ∧ (p.values.head?.bind (·.ident)) = some ident then
      (⟨p.key, modifyIdx (fun v => { v with var := tag }) 0 p.values⟩ :: ps, true)
    else
      let r := markPairValue key ident tag ps
      (p :: r.1, r.2)

/-- Marks (with `tag`) the value the C code obtains from
`checker_find_variable` and then mutates through the pointer. -/
def checker_mark_variable (type key ident : String) (tag : Nat) :
    List definition_t → List definition_t
  | [] => []
  | d :: ds =>
    if d.type = type then
      let r := markPairValue key ident tag d.pairs
      if r.2 then { d with pairs := r.1 } :: ds
      else d :: checker_mark_variable type key ident tag ds
    else d :: checker_mark_variable type key ident tag ds

/-- Per-pair test of `checker_find_reference`: the pair's head value, when
the key matches and the value is an identifier. -/
def findRefPair (key : String) (p : pair_t) : Option value_t :=
  if p.key = key then
    match p.values.head? with
    | some v => if v.ident.isSome then some v else none
    | none => none
  else none

/-- `checker_find_reference`: first `key` property value that is an
identifier. -/
def checker_find_reference (def_ : definition_t) (key : String) :
    Option value_t :=
  def_.pairs.findSome? (findRefPair key)

/-- Index of the pair `checker_find_prop_value` returns the value chain of:
the first `key` property whose head value is numeric (not an identifier). -/
def findPropPairIdx (def_ : definition_t) (key : String) : Option Nat :=
  (List.range def_.pairs.length).find? (fun i =>
    match def_.pairs.get? i with
    | some p =>
      p.key = key &&
        (match p.values.head? with
         | some v => v.ident = none
         | none => false)
    | none => false)

/-- `checker_find_prop_value`: the value chain of the first `key` property
whose head value is numeric, if any. -/
def checker_find_prop_value (def_ : definition_t) (key : String) :
    Option (List value_t) :=
  (findPropPairIdx def_ key).bind fun i => (def_.pairs.get? i).map (·.values)

/-- A special-value constraint (`struct special_t`): allowed identifier
values for one (type, property-key). -/
structure special_t where
  type : String
  key : String
  value : List String
deriving Repr

/-- The table of special identifiers (`checker_specials`). -/
def checker_specials : List special_t :=
  [⟨"JFET", "Type", ["nfet", "pfet"]⟩,
   ⟨"BJT", "Type", ["npn", "pnp"]⟩,
   ⟨"MOSFET", "Type", ["nfet", "pfet"]⟩,
   ⟨"SP", "Noise", ["yes", "no"]⟩,
   ⟨"SP", "Type", ["lin", "log", "list", "const"]⟩,
   ⟨"AC", "Type", ["lin", "log", "list", "const"]⟩,
   ⟨"AC", "Noise", ["yes", "no"]⟩,
   ⟨"DC", "saveOPs", ["yes", "no"]⟩,
   ⟨"DC", "saveAll", ["yes", "no"]⟩,
   ⟨"DC", "convHelper", ["none", "SourceStepping", "gMinStepping",
      "LineSearch", "Attenuation", "SteepestDescent"]⟩,
   ⟨"TR", "Type", ["lin", "log"]⟩,
   ⟨"TR", "IntegrationMethod", ["Euler", "Trapezoidal", "Gear", "AdamsMoulton"]⟩,
   ⟨"MLIN", "DispModel", ["Kirschning", "Kobayashi", "Yamashita", "Getsinger",
      "Schneider", "Pramanick", "Hammerstad"]⟩,
   ⟨"MLIN", "Model", ["Wheeler", "Schneider", "Hammerstad"]⟩,
   ⟨"CLIN", "Backside", ["Metal", "Air"]⟩,
   ⟨"SW", "Type", ["lin", "log", "list", "const"]⟩,
   ⟨"SPfile", "Data", ["rectangular", "polar"]⟩,
   ⟨"MSTEP", "MSDispModel", ["Kirschning", "Kobayashi", "Yamashita",
      "Getsinger", "Schneider", "Pramanick", "Hammerstad"]⟩,
   ⟨"MSTEP", "MSModel", ["Wheeler", "Schneider", "Hammerstad"]⟩,
   ⟨"MOPEN", "MSDispModel", ["Kirschning", "Kobayashi", "Yamashita",
      "Getsinger", "Schneider", "Pramanick", "Hammerstad"]⟩,
   ⟨"MOPEN", "MSModel", ["Wheeler", "Schneider", "Hammerstad"]⟩,
   ⟨"MOPEN", "Model", ["Kirschning", "Hammerstad", "Alexopoulos"]⟩,
   ⟨"MGAP", "MSDispModel", ["Kirschning", "Kobayashi", "Yamashita",
      "Getsinger", "Schneider", "Pramanick", "Hammerstad"]⟩,
   ⟨"MGAP", "MSModel", ["Wheeler", "Schneider", "Hammerstad"]⟩,
   ⟨"MCOUPLED", "Model", ["Kirschning", "Hammerstad"]⟩,
   ⟨"MCOUPLED", "DispModel", ["Kirschning", "Getsinger"]⟩]

/-- `checker_validate_special`: for each special whose (type, key, ident)
triple occurs in the definition list, counts how often the identifier occurs
among the allowed values; the total is the returned found count (zero means
the identifier is invalid, which the C code reports by a log message). -/
def checker_validate_special (root : List definition_t) (def_ : definition_t)
    (ident : String) : Nat :=
  let _ := def_
  checker_specials.foldl
    (fun found sp =>
      if (checker_find_variable root sp.type sp.key ident).isSome then
        found + sp.value.count ident
      else found) 0

/-- `checker_find_substrate`: if the definition is a microstrip component
whose `Subst` reference equals the identifier, that reference. -/
def checker_find_substrate (def_ : definition_t) (ident : String) :
    Option value_t :=
  if strip_available.contains def_.type then
    match checker_find_reference def_ "Subst" with
    | some val => if val.ident = some ident then some val else none
    | none => none
  else none

/-- The definition list after resolution domain 1 of
`checker_resolve_variable`: when the identifier names a sweep `Param`
value, that value is tagged as a variable through the found pointer. -/
def resolveRoot1 (root : List definition_t) (id : String) :
    List definition_t :=
  if (checker_find_variable root "SW" "Param" id).isSome then
    checker_mark_variable "SW" "Param" id TAG_DOUBLE root
  else root

/-- Result of `checker_resolve_variable`: the (possibly re-tagged)
definition list, the updated `var`/`subst` annotations of the examined
value, and the success flag (false means "no such variable", which the
caller counts as an error). -/
structure resolve_t where
  root : List definition_t
  var : Nat
  subst : Bool
  ok : Bool

/-- `checker_resolve_variable`: tries, in order, the six resolution
domains (sweep parameter, sweep analysis reference, substrate, subcircuit
type, special value, S-parameter file), accumulating a found count; domain
1 additionally tags both the sweep value and the examined value as
variables, and domain 3 sets the substrate annotation.  Fails exactly when
the value is an identifier matched by no domain. -/
def checker_resolve_variable (root : List definition_t) (def_ : definition_t)
    (value : value_t) : resolve_t :=
  match value.ident with
  | none => ⟨root, value.var, value.subst, true⟩
  | some id =>
    let hit1 := (checker_find_variable root "SW" "Param" id).isSome
    let f1 := if hit1 then 1 else 0
    let root1 := resolveRoot1 root id
    let var1 := if hit1 then TAG_DOUBLE else value.var
    let f2 := if (checker_find_variable root1 "SW" "Sim" id).isSome then 1 else 0
    let hit3 := (checker_find_substrate def_ id).isSome
    let f3 := if hit3 then 1 else 0
    let subst1 := if hit3 then true else value.subst
    let f4 := if (checker_find_variable root1 "Sub" "Type" id).isSome then 1 else 0
    let f5 := if checker_validate_special root1 def_ id ≠ 0 then 1 else 0
    let f6 := if (checker_find_variable root1 "SPfile" "File" id).isSome then 1 else 0
    ⟨root1, var1, subst1, decide (f1 + f2 + f3 + f4 + f5 + f6 ≠ 0)⟩

/-- Strips the resolver annotations from a value (for stating that
resolution is annotate-only). -/
def eraseValue (v : value_t) : value_t :=
  { v with var := TAG_UNKNOWN, subst := false }

/-- Strips the resolver annotations from a pair. -/
def erasePair (p : pair_t) : pair_t :=
  { p with values := p.values.map eraseValue }

/-- Strips the resolver annotations from a definition. -/
def eraseDef (d : definition_t) : definition_t :=
  { d with pairs := d.pairs.map erasePair }

/-- Strips the resolver annotations from a whole definition list. -/
def eraseTags (root : List definition_t) : List definition_t :=
  root.map eraseDef

/-- `checker_count_definitions`: number of definitions of the given action
class, restricted to one type when a type is given. -/
def checker_count_definitions (root : List definition_t) (type : Option String)
    (action : Nat) : Nat :=
  root.countP (fun d =>
    d.action = action &&
      (match type with
       | none => true
       | some t => d.type = t))

/-- `checker_find_subcircuit`: the first subcircuit template in the
registry with the given name (NULL name finds nothing). -/
def checker_find_subcircuit (registry : List definition_t)
    (n : Option String) : Option definition_t :=
  match n with
  | none => none
  | some name => registry.find? (fun d => d.inst = name)

/-- `checker_get_subcircuit`: the template a subcircuit instance's `Type`
reference names, if any. -/
def checker_get_subcircuit (registry : List definition_t)
    (def_ : definition_t) : Option definition_t :=
  match checker_find_reference def_ "Type" with
  | some val => checker_find_subcircuit registry val.ident
  | none => none

/-- `checker_count_nonlinearities`: number of nonlinear circuit instances,
recursing into the body of every referenced subcircuit template whenever the
global cycle flag (`checker_sub_cycles`, threaded here as `flag`) is not
positive.  With a cyclic registry and non-positive flag the C recursion
diverges; the fuel models that as `none`. -/
def checker_count_nonlinearities (registry : List definition_t) (flag : Int) :
    Nat → List definition_t → Option Nat
  | _, [] => some 0
  | 0, _ :: _ => none
  | fuel + 1, d :: ds =>
    let c1 := if d.nonlinear ≠ 0 then 1 else 0
    let c2? : Option Nat :=
      if flag ≤ 0 ∧ d.type = "Sub" then
        match checker_get_subcircuit registry d with
        | some sub => checker_count_nonlinearities registry flag fuel sub.sub
        | none => some 0
      else some 0
    match c2?, checker_count_nonlinearities registry flag fuel ds with
    | some a, some b => some (c1 + a + b)
    | _, _ => none

/-- `checker_count_action`: number of action definitions with the given
instance name. -/
def checker_count_action (root : List definition_t) (instName : String) : Nat :=
  root.countP (fun d => d.action = 1 && d.inst = instName)

/-- Loop body of `checker_validate_para_cycles`: scans the remaining
definitions for the given instance; finding it already in the dependency
list is a cyclic-definition error, otherwise the instance is appended and a
`SW` definition chains to its `Sim` reference. -/
def paraCyclesLoop (root : List definition_t) :
    Nat → List definition_t → String → List String → Option Nat
  | _, [], _, _ => some 0
  | 0, _ :: _, _, _ => none
  | fuel + 1, d :: ds, instName, deps =>
    if d.action = 1 ∧ d.inst = instName then
      if instName ∈ deps then some 1
      else
        let deps2 := deps ++ [instName]
        match (if d.type = "SW" then checker_find_reference d "Sim" else none) with
        | some val =>
          match val.ident with
          | some simName => paraCyclesLoop root fuel root simName deps2
          | none => paraCyclesLoop root fuel ds instName deps2
        | none => paraCyclesLoop root fuel ds instName deps
    else paraCyclesLoop root fuel ds instName deps

/-- `checker_validate_para_cycles`: cyclic-definition detection for
parameter sweeps, starting from the given instance name. -/
def checker_validate_para_cycles (root : List definition_t) (fuel : Nat)
    (instName : String) (deps : List String) : Option Nat :=
  paraCyclesLoop root fuel root instName deps

/-- One step of `checker_validate_para` for one definition: a parameter
sweep's `Sim` property must be a reference, must not refer to itself, must
name exactly one action, and must not be cyclically defined. -/
def validateParaStep (root : List definition_t) (fuel : Nat) (errors : Nat)
    (d : definition_t) : Option Nat :=
  if d.action = 1 ∧ d.type = "SW" then
    match checker_find_reference d "Sim" with
    | none => some (errors + 1)
    | some val =>
      match val.ident with
      | some simName =>
        let e1 := if d.inst = simName then 1 else 0
        let e2 := if checker_count_action root simName ≠ 1 then 1 else 0
        (checker_validate_para_cycles root fuel simName []).map
          (fun e3 => errors + e1 + e2 + e3)
      | none => some errors
  else some errors

/-- `checker_validate_para`: validates each parameter sweep (see
`validateParaStep`). -/
def checker_validate_para (root : List definition_t) (fuel : Nat) : Option Nat :=
  root.foldlM (validateParaStep root fuel) 0

/-- Truncating double-to-int cast, as the C `(int)` conversion. -/
def ratTrunc (q : ℚ) : Int := q.num / q.den

/-- The truncated `Num` property value of a port definition, if any. -/
def portNum (d : definition_t) : Option Int :=
  (checker_find_prop_value d "Num").bind fun vs =>
    vs.head?.map fun v => ratTrunc v.value

/-- `checker_validate_ports`: counts, over all ordered pairs of distinct
`Pac` components with numeric `Num` properties, those with equal truncated
port numbers (each duplicate pair is reported from both sides, as in the C
double loop). -/
def checker_validate_ports (root : List definition_t) : Nat :=
  let ports := root.filter fun d => d.action = PROP_COMPONENT && d.type = "Pac"
  (List.range ports.length).foldl
    (fun errors i =>
      match (ports.get? i).bind portNum with
      | some p =>
        errors +
          (List.range ports.length).countP (fun j =>
            j ≠ i &&
              (match (ports.get? j).bind portNum with
               | some q => q = p
               | none => false))
      | none => errors) 0

/-- Applies the `Values`-chain mutation of `checker_validate_lists` to the
`j`-th pair of a definition: the head value is tagged as a vector and the
unit scale of every value in the chain is folded. -/
def retagAndFoldValues (tenPow : ℚ → ℚ) (j : Nat) (dd : definition_t) :
    definition_t :=
  { dd with
    pairs := modifyIdx
      (fun p =>
        { p with
          values :=
            (modifyIdx (fun v => { v with var := TAG_VECTOR }) 0 p.values).map
              (checker_evaluate_scale tenPow) })
      j dd.pairs }

/-- One step of `checker_validate_lists` for the definition at index `k`.
The C code reads the identifier of the `Type` reference without checking
that the reference exists; a missing `Type` dereferences NULL, modelled as
`none`.  For `const`/`list` sweeps the `Values` chain is tagged as a vector
and its unit scales are folded.  (The C code re-reads the definition for
Start/Stop/Points after mutating the Values chain; the mutation touches
neither keys nor idents, so reading the pre-mutation snapshot is
equivalent.) -/
def validateListsStep (tenPow : ℚ → ℚ) (st : Nat × List definition_t)
    (k : Nat) : Option (Nat × List definition_t) :=
  let errors := st.1
  let cur := st.2
  match cur.get? k with
  | none => some st
  | some d =>
    if d.action = 1 ∧ (d.type = "SW" ∨ d.type = "AC" ∨ d.type = "SP") then
      match checker_find_reference d "Type" with
      | none => none
      | some val =>
        let ty := val.ident
        if ty = some "const" ∨ ty = some "list" then
          let r1 : Nat × List definition_t :=
            match findPropPairIdx d "Values" with
            | none => (1, cur)
            | some j =>
              let vs := ((d.pairs.get? j).map (·.values)).getD []
              let e := if ty = some "const" ∧ vs.length > 1 then 1 else 0
              (e, modifyIdx (retagAndFoldValues tenPow j) k cur)
          let e2 := if (checker_find_prop_value d "Start").isSome then 1 else 0
          let e3 := if (checker_find_prop_value d "Stop").isSome then 1 else 0
          let e4 := if (checker_find_prop_value d "Points").isSome then 1 else 0
          some (errors + r1.1 + e2 + e3 + e4, r1.2)
        else if ty = some "lin" ∨ ty = some "log" then
          let e1 := if (checker_find_prop_value d "Start").isNone then 1 else 0
          let e2 := if (checker_find_prop_value d "Stop").isNone then 1 else 0
          let e3 := if (checker_find_prop_value d "Points").isNone then 1 else 0
          let e4 := if (checker_find_prop_value d "Values").isSome then 1 else 0
          some (errors + e1 + e2 + e3 + e4, cur)
        else some (errors, cur)
    else some st

/-- `checker_validate_lists`: checks the sweep-type property exclusivity of
`SW`, `AC` and `SP` actions (see `validateListsStep`). -/
def checker_validate_lists (tenPow : ℚ → ℚ) (root : List definition_t) :
    Option (Nat × List definition_t) :=
  (List.range root.length).foldlM (validateListsStep tenPow) (0, root)

/-- `checker_validate_actions`: requires at least one action; with any
S-parameter analysis at least one `Pac`; at most one `DC` action; a `DC`
action whenever an `AC`/`SP` analysis coexists with a nonlinearity (counted
by `checker_count_nonlinearities` under the global cycle flag); then also
validates sweeps, ports and sweep lists. -/
def checker_validate_actions (tenPow : ℚ → ℚ) (registry : List definition_t)
    (flag : Int) (fuel : Nat) (root : List definition_t) :
    Option (Nat × List definition_t) := do
  let e1 ←
    if checker_count_definitions root none 1 < 1 then (some 1 : Option Nat)
    else do
      let a0 := checker_count_definitions root (some "SP") 1
      let ePac := if a0 ≥ 1 ∧ checker_count_definitions root (some "Pac") 0 < 1
        then 1 else 0
      let a := a0 + checker_count_definitions root (some "AC") 1
      let c ← checker_count_nonlinearities registry flag fuel root
      let n := checker_count_definitions root (some "DC") 1
      let eDCx := if n > 1 then 1 else 0
      let eDCm := if a ≥ 1 ∧ c ≥ 1 ∧ n < 1 then 1 else 0
      some (ePac + eDCx + eDCm)
  let e2 ← checker_validate_para root fuel
  let e3 := checker_validate_ports root
  let r ← checker_validate_lists tenPow root
  some (e1 + e2 + e3 + r.1, r.2)

/-- Loop of `checker_validate_sub_cycles` over the circuit elements of a
subcircuit body: each not-yet-checked nested `Sub` reference is validated
by the `recur` callback (the recursive cycle check one fuel level down); on
errors the dependency list stays polluted and scanning goes on, on success
it is restored to the pre-call copy. -/
def subCyclesLoopF
    (recur : definition_t → String → List String → Option (Nat × List String))
    (registry : List definition_t) (instName : String) :
    List definition_t → List String → List String → Nat →
    Option (Nat × List String)
  | [], deps, _, errors => some (errors, deps)
  | d :: ds, deps, checked, errors =>
    if d.type = "Sub" then
      match checker_find_reference d "Type" with
      | some val =>
        match val.ident with
        | some ident =>
          if ident ∈ checked then
            subCyclesLoopF recur registry instName ds deps checked errors
          else
            let checked1 := checked ++ [ident]
            match checker_find_subcircuit registry (some ident) with
            | none => none
            | some sub =>
              match recur sub sub.inst deps with
              | none => none
              | some (error, depsAfter) =>
                if error ≠ 0 then
                  subCyclesLoopF recur registry instName ds depsAfter checked1
                    (errors + error)
                else
                  subCyclesLoopF recur registry instName ds deps checked1 errors
        | none => subCyclesLoopF recur registry instName ds deps checked errors
      | none => subCyclesLoopF recur registry instName ds deps checked errors
    else subCyclesLoopF recur registry instName ds deps checked errors

/-- `checker_validate_sub_cycles`: cyclic-definition detection for the
subcircuit instantiation graph.  If the template name is already among the
dependencies a cycle is reported (error 1) and the polluted dependency list
is handed back; otherwise the name is appended and the body is scanned by
`subCyclesLoopF`.  The fuel bounds the nesting depth; `none` models both
exhaustion and the NULL dereference the C code performs when a nested
`Type` reference names no template. -/
def checker_validate_sub_cycles (registry : List definition_t) :
    Nat → definition_t → String → String → List String →
    Option (Nat × List String)
  | 0, _, _, _, _ => none
  | fuel + 1, root, type, instName, deps =>
    if type ∈ deps then some (1, deps)
    else
      subCyclesLoopF
        (fun sub t deps2 =>
          checker_validate_sub_cycles registry fuel sub t instName deps2)
        registry instName root.sub (deps ++ [type]) [] 0

/-- `checker_validate_subcircuits`: every `Sub` instance must carry a
`Type` reference naming an existing template with a matching node count,
and the template's instantiation graph must be cycle free.  The global
`checker_sub_cycles` flag is overwritten with the cycle-error count of
each validated instance; the function returns (errors, final flag). -/
def checker_validate_subcircuits (registry : List definition_t) (fuel : Nat)
    (root : List definition_t) (flag : Int) : Option (Nat × Int) :=
  root.foldlM
    (fun (st : Nat × Int) d =>
      if d.type = "Sub" then
        match checker_find_reference d "Type" with
        | none => some (st.1 + 1, st.2)
        | some val =>
          match checker_find_subcircuit registry val.ident with
          | none => some (st.1 + 1, st.2)
          | some sub =>
            let e1 := if checker_count_nodes d ≠ checker_count_nodes sub
              then 1 else 0
            match checker_validate_sub_cycles registry fuel sub sub.inst
                d.inst [] with
            | none => none
            | some (err, _) => some (st.1 + e1 + err, Int.ofNat err)
      else some st)
    (0, flag)

/-- `checker_validate_strips`: every microstrip component must carry a
`Subst` reference naming exactly one `SUBST` definition (the count call
also marks duplicate substrates). -/
def checker_validate_strips (root : List definition_t) :
    Nat × List definition_t :=
  (List.range root.length).foldl
    (fun (st : Nat × List definition_t) k =>
      match st.2.get? k with
      | none => st
      | some d =>
        if d.action = 0 ∧ strip_available.contains d.type then
          match checker_find_reference d "Subst" with
          | none => (st.1 + 1, st.2)
          | some val =>
            match val.ident with
            | some substName =>
              let r := checker_count_definition st.2 "SUBST" substName
              (if r.1 ≠ 1 then st.1 + 1 else st.1, r.2)
            | none => st
        else st)
    (0, root)

/-- `checker_count_nodes` (two-argument overload): occurrences of the node
name among non-action, non-nodeset definitions. -/
def checker_count_nodes_name (root : List definition_t) (n : String) : Nat :=
  root.foldl
    (fun c d =>
      if d.action = 0 ∧ ¬ d.nodeset then
        c + d.nodes.countP (fun node => node.node = some n)
      else c) 0

/-- `checker_count_nodesets`: counts non-duplicate nodesets naming the
given node, marking every one beyond the first as duplicate. -/
def checker_count_nodesets (root : List definition_t) (n : String) :
    Nat × List definition_t :=
  let rec go : List definition_t → Nat → Nat × List definition_t
    | [], count => (count, [])
    | d :: ds, count =>
      if d.nodeset ∧ ¬ d.duplicate ∧ d.nodes.head?.bind (·.node) = some n then
        let count1 := count + 1
        let d1 := if count1 > 1 then { d with duplicate := true } else d
        let r := go ds count1
        (r.1, d1 :: r.2)
      else
        let r := go ds count
        (r.1, d :: r.2)
  go root 0

/-- `checker_validate_nodesets`: a one-node nodeset must name an existing
node and must be the unique nodeset for that node. -/
def checker_validate_nodesets (root : List definition_t) :
    Nat × List definition_t :=
  (List.range root.length).foldl
    (fun (st : Nat × List definition_t) k =>
      match st.2.get? k with
      | none => st
      | some d =>
        if d.nodeset ∧ checker_count_nodes d = 1 then
          match d.nodes.head?.bind (·.node) with
          | some node =>
            let e1 := if checker_count_nodes_name st.2 node ≤ 0 then 1 else 0
            let r := checker_count_nodesets st.2 node
            let e2 := if r.1 > 1 then 1 else 0
            (st.1 + e1 + e2, r.2)
          | none => st
        else st)
    (0, root)

/-- `checker_value_in_prop_range`: error count for one key/value pair
against one property descriptor: non-list properties must be single valued,
ranged values must lie in the range, integer properties must have integral
head values; identifier properties must have identifier head values. -/
def checker_value_in_prop_range (instName : String) (def_ : define_t)
    (pair : pair_t) (prop : property_t) : Nat :=
  let _ := instName
  let _ := def_
  if prop.isValue then
    let e1 := if ¬ prop.isList ∧ pair.values.length > 1 then 1 else 0
    let e2 :=
      if prop.hasRange then
        pair.values.countP (fun v => v.value < prop.lo || v.value > prop.hi)
      else 0
    let headFractional : Bool :=
      match pair.values.head? with
      | some v => v.value.den != 1
      | none => false
    let e3 := if prop.isInt ∧ headFractional then 1 else 0
    e1 + e2 + e3
  else
    let headNumeric : Bool :=
      match pair.values.head? with
      | some v => v.ident.isNone
      | none => false
    if headNumeric then 1 else 0

/-- `checker_value_in_range`: sums `checker_value_in_prop_range` over the
matching required and optional descriptors, returning 0 on errors and 1 on
success (as the C function does). -/
def checker_value_in_range (instName : String) (def_ : define_t)
    (pair : pair_t) : Nat :=
  let e :=
    def_.required.foldl
      (fun acc p =>
        if p.key = pair.key then
          acc + checker_value_in_prop_range instName def_ pair p
        else acc) 0 +
    def_.optional.foldl
      (fun acc p =>
        if p.key = pair.key then
          acc + checker_value_in_prop_range instName def_ pair p
        else acc) 0
  if e ≠ 0 then 0 else 1

/-- The duplicate-definition check of `netlist_checker_intern` for the
definition at index `k`: `checker_count_definition` recounts (and marks)
the (type, instance) group, and an error is charged when the count differs
from 1 and the definition itself is (still) unmarked. -/
def dupCheckStep (st : Nat × List definition_t) (k : Nat) :
    Nat × List definition_t :=
  match st.2.get? k with
  | none => st
  | some d =>
    let r := checker_count_definition st.2 d.type d.inst
    match r.2.get? k with
    | some d1 =>
      (if r.1 ≠ 1 ∧ d1.duplicate = false then st.1 + 1 else st.1, r.2)
    | none => st

/-- The duplicate-definition pass over a whole definition list (the
`checker_count_definition` calls of `netlist_checker_intern`, lines
1512-1518, in sequence). -/
def dupCheckFold (root : List definition_t) : Nat × List definition_t :=
  (List.range root.length).foldl dupCheckStep (0, root)

/-- `checker_copy_subcircuit`: a fresh copy of a circuit definition that
shares (not duplicates) the property chain, marked as a copy.  Node list,
instance name and the remaining fields are left empty/zero (`calloc`). -/
def checker_copy_subcircuit (sub : definition_t) : definition_t :=
  { type := sub.type
    inst := ""
    line := 0
    nodes := []
    pairs := sub.pairs
    action := sub.action
    nonlinear := sub.nonlinear
    substrate := sub.substrate
    nodeset := sub.nodeset
    duplicate := false
    copy := true
    ncount := 0
    subcircuit := none
    define := sub.define
    sub := [] }

/-- `checker_xlat_subcircuit_nodes`: walks the formal nodes of the template
`type` in parallel with the actual nodes of the instance `inst` (1-based
position `i`) and stores, on every node of the body element `sub` matching
the formal name, the actual node name and the position in the `xlate`
translation slot. -/
def checker_xlat_subcircuit_nodes (type inst sub : definition_t) :
    definition_t :=
  let pairsZ := type.nodes.zip inst.nodes
  { sub with
    nodes :=
      (List.range pairsZ.length).foldl
        (fun ns i =>
          match pairsZ.get? i with
          | some (ntype, ninst) =>
            ns.map fun n =>
              if n.node = ntype.node then
                { n with xlate := ninst.node, xlatenr := i + 1 }
              else n
          | none => ns)
        sub.nodes }

/-- `checker_subcircuit_node`: the path-qualified node name
`type.instances.instance.node` (the instance-path component is omitted when
absent). -/
def checker_subcircuit_node (type : String) (instances : Option String)
    (instName node : String) : String :=
  match instances with
  | some l => type ++ "." ++ l ++ "." ++ instName ++ "." ++ node
  | none => type ++ "." ++ instName ++ "." ++ node

/-- `checker_subcircuit_instance`: the path-qualified instance name
`type.instances.instance.base`. -/
def checker_subcircuit_instance (type : String) (instances : Option String)
    (instName base : String) : String :=
  match instances with
  | some l => type ++ "." ++ l ++ "." ++ instName ++ "." ++ base
  | none => type ++ "." ++ instName ++ "." ++ base

/-- `checker_subcircuit_instance_list`: the "."-joined instance path, or
nothing when the path is empty (the C list may also be NULL; both cases
produce NULL). -/
def checker_subcircuit_instance_list (instances : List String) :
    Option String :=
  if instances.length > 0 then some (String.intercalate "." instances)
  else none

/-- `checker_copy_subcircuit_nodes`: assigns the node list of a copied body
element: a translated node (a formal port) takes its translation at the
outermost level and is otherwise intentionally blanked for the enclosing
level; `gnd` passes through; any other node gets a path-qualified internal
name.  The C code builds the list reversed and reverses it back. -/
def checker_copy_subcircuit_nodes (type inst sub copy : definition_t)
    (instances : Option String) : definition_t :=
  let built := sub.nodes.foldl
    (fun root n =>
      let ncopy : node_t :=
        { node :=
            if n.xlate.isSome then
              (if instances = none then n.xlate else none)
            else if n.node = some "gnd" then n.node
            else
              match n.node with
              | some nm =>
                some (checker_subcircuit_node type.inst instances inst.inst nm)
              | none => none
          xlate := none
          xlatenr := n.xlatenr }
      ncopy :: root)
    []
  { copy with nodes := built.reverse }

/-- `checker_get_circuit_node`: the node at the given 1-based position
(running past the end asserts in C; modelled as `none`). -/
def checker_get_circuit_node (nodes : List node_t) (n : Nat) :
    Option node_t :=
  nodes.get? (n - 1)

/-- `checker_copy_circuit_nodes`: resolves the intentionally blanked nodes
of an already-flattened copy against the translation of the enclosing
`Sub` element `sub`: a port that maps to yet another formal port one level
up stays blank (unless this is the outermost level), `gnd` passes through,
anything else gets a path-qualified internal name.  `none` models the
assertion failures of the C code. -/
def checker_copy_circuit_nodes (type inst sub copy : definition_t)
    (instances : Option String) : Option definition_t := do
  let nodes1 ← copy.nodes.mapM fun ncopy =>
    if ncopy.node = none then
      if ncopy.xlatenr = 0 then none
      else
        match checker_get_circuit_node sub.nodes ncopy.xlatenr with
        | none => none
        | some n =>
          some
            { ncopy with
              xlatenr := n.xlatenr
              node :=
                if n.xlate.isSome then
                  (if instances = none then n.xlate else none)
                else if n.node = some "gnd" then n.node
                else
                  match n.node with
                  | some nm =>
                    some (checker_subcircuit_node type.inst instances
                      inst.inst nm)
                  | none => none }
    else some ncopy
  some { copy with nodes := nodes1 }

/-- Loop of `checker_copy_subcircuits` over the body elements: nested
`Sub` elements recurse (through the `recur` callback, the flattener one
fuel level down) with the instance name appended to the path (the path is
restored afterwards) and their already-flattened copies get their blanked
nodes resolved; ordinary elements are copied with a path-qualified instance
name and translated nodes.  Copies accumulate by prepending. -/
def copySubLoopF
    (recur : definition_t → definition_t → List String →
      Option (List definition_t × List String))
    (registry : List definition_t) (type inst : definition_t) :
    List definition_t → List definition_t → List String →
    Option (List definition_t × List String)
  | [], root, instances => some (root, instances)
  | d :: ds, root, instances =>
    let d1 := checker_xlat_subcircuit_nodes type inst d
    if d1.type = "Sub" then
      match checker_get_subcircuit registry d1 with
      | none => none
      | some sub =>
        let instcopy := instances
        match recur sub d1 (instances ++ [inst.inst]) with
        | none => none
        | some (copy, _) =>
          let root1? : Option (List definition_t) :=
            if copy.isEmpty then some root
            else
              (copy.mapM fun c =>
                checker_copy_circuit_nodes type inst d1 c
                  (checker_subcircuit_instance_list instcopy)).map
                (fun copy1 => copy1 ++ root)
          match root1? with
          | none => none
          | some root1 =>
            copySubLoopF recur registry type inst ds root1 instcopy
    else
      let c0 := checker_copy_subcircuit d1
      let lst := checker_subcircuit_instance_list instances
      let c1 :=
        { c0 with
          inst := checker_subcircuit_instance type.inst lst inst.inst d1.inst
          subcircuit := some type.inst }
      let c2 := checker_copy_subcircuit_nodes type inst d1 c1 lst
      copySubLoopF recur registry type inst ds (c2 :: root) instances

/-- `checker_copy_subcircuits`: produces the flattened copy of the template
`type` for the instance `inst`, in reverse body order, threading the
current instance path.  The C function's node-translation mutation of the
template body (and its cleanup after each element) is local to one
iteration and is modelled by translating into a per-iteration copy. -/
def checker_copy_subcircuits (registry : List definition_t) :
    Nat → definition_t → definition_t → List String →
    Option (List definition_t × List String)
  | 0, _, _, _ => none
  | fuel + 1, type, inst, instances =>
    copySubLoopF (checker_copy_subcircuits registry fuel) registry type inst
      type.sub [] instances

/-- Loop of `checker_expand_subcircuits`: scans the list left to right; a
`Sub` instance is removed, its flattened copies (in reverse body order) are
spliced at the head of the whole remaining list, and scanning resumes from
the old head.  `pre` is the already-scanned prefix (everything before the
scan position), `rest` the unscanned remainder. -/
def expandLoop (registry : List definition_t) :
    Nat → List definition_t → List definition_t → Option (List definition_t)
  | _, pre, [] => some pre
  | 0, _, _ :: _ => none
  | fuel + 1, pre, d :: rest =>
    if d.type = "Sub" then
      match checker_get_subcircuit registry d with
      | none => none
      | some sub =>
        match checker_copy_subcircuits registry (fuel + 1) sub d [] with
        | none => none
        | some (copy, _) =>
          if copy.isEmpty then expandLoop registry fuel pre rest
          else expandLoop registry fuel copy (pre ++ rest)
    else expandLoop registry fuel (pre ++ [d]) rest

/-- `checker_expand_subcircuits`: expands all subcircuit instances of the
definition list, freeing the instances and splicing the flattened copies
(see `expandLoop`). -/
def checker_expand_subcircuits (registry : List definition_t) (fuel : Nat)
    (root : List definition_t) : Option (List definition_t) :=
  expandLoop registry fuel [] root

/-- `checker_build_subcircuits`: removes every subcircuit template (`Def`)
from the definition list (recursively from template bodies as well) and
prepends it to the template registry; returns (remaining list, registry).
The C recursion terminates on any finite graph; the fuel (consumed on each
step) only serves to keep the Lean recursion structural. -/
def checker_build_subcircuits :
    Nat → List definition_t → List definition_t →
    Option (List definition_t × List definition_t)
  | _, [], reg => some ([], reg)
  | 0, _ :: _, _ => none
  | fuel + 1, d :: ds, reg =>
    if d.type = "Def" then
      match checker_build_subcircuits fuel d.sub reg with
      | none => none
      | some r1 =>
        checker_build_subcircuits fuel ds ({ d with sub := r1.1 } :: r1.2)
    else
      match checker_build_subcircuits fuel ds reg with
      | none => none
      | some r => some (d :: r.1, r.2)

/-- The per-definition body of the `netlist_checker_intern` loop for the
definition at index `k`: catalog lookup (unknown type short-circuits the
statement's checks), annotation recording, node-count check, required /
optional property multiplicity, then per-pair extraneous-property check,
unit-scale folding of the head value, range check and variable resolution;
finally the duplicate-definition check (which runs even for unknown
types). -/
def internStep (tenPow : ℚ → ℚ) (avail : List define_t)
    (st : Nat × List definition_t) (k : Nat) : Nat × List definition_t :=
  let errors := st.1
  let root := st.2
  match root.get? k with
  | none => st
  | some d =>
    let st1 : Nat × List definition_t :=
      match checker_find_definition avail d.type d.action with
      | none => (errors + 1, root)
      | some available =>
        let n := checker_count_nodes d
        let d1 :=
          { d with
            nodeset := d.type = "NodeSet"
            nonlinear := available.nonlinear
            substrate := available.substrate
            define := some available
            ncount := n }
        let eN :=
          if available.nodes = PROP_NODES then (if n < 1 then 1 else 0)
          else (if available.nodes ≠ (n : Int) then 1 else 0)
        let eReq := available.required.foldl
          (fun acc p =>
            if checker_find_property p.key d.pairs ≠ 1 then acc + 1 else acc) 0
        let eOpt := available.optional.foldl
          (fun acc p =>
            if checker_find_property p.key d.pairs ≥ 2 then acc + 1 else acc) 0
        let root1 := modifyIdx (fun _ => d1) k root
        (List.range d.pairs.length).foldl
          (fun (st2 : Nat × List definition_t) j =>
            let cur := st2.2
            match cur.get? k with
            | none => st2
            | some dd =>
              match dd.pairs.get? j with
              | none => st2
              | some pair =>
                let eX := if ¬ checker_is_property available pair.key
                  then 1 else 0
                let cur1 := modifyIdx
                  (fun x =>
                    { x with
                      pairs := modifyIdx
                        (fun p =>
                          { p with
                            values := modifyIdx
                              (checker_evaluate_scale tenPow) 0 p.values })
                        j x.pairs })
                  k cur
                match cur1.get? k with
                | none => st2
                | some dd1 =>
                  match dd1.pairs.get? j with
                  | none => st2
                  | some pair1 =>
                    let eR :=
                      if checker_value_in_range dd1.inst available pair1 = 0
                      then 1 else 0
                    match pair1.values.head? with
                    | none => (st2.1 + eX + eR, cur1)
                    | some v =>
                      let res := checker_resolve_variable cur1 dd1 v
                      let eV := if res.ok then 0 else 1
                      let cur2 := modifyIdx
                        (fun x =>
                          { x with
                            pairs := modifyIdx
                              (fun p =>
                                { p with
                                  values := modifyIdx
                                    (fun vv =>
                                      { vv with
                                        var := res.var
                                        subst := res.subst }) 0 p.values })
                              j x.pairs })
                        k res.root
                      (st2.1 + eX + eR + eV, cur2))
          (errors + eN + eReq + eOpt, root1)
    dupCheckStep st1 k

/-- `netlist_checker_intern`: the per-statement checker loop over one
definition list followed by the microstrip, subcircuit and nodeset
validations; returns (errors, updated list, updated `checker_sub_cycles`
flag). -/
def netlist_checker_intern (tenPow : ℚ → ℚ) (avail : List define_t)
    (registry : List definition_t) (fuel : Nat) (root : List definition_t)
    (flag : Int) : Option (Nat × List definition_t × Int) :=
  let st1 := (List.range root.length).foldl (internStep tenPow avail) (0, root)
  let st2 := checker_validate_strips st1.2
  match checker_validate_subcircuits registry fuel st2.2 flag with
  | none => none
  | some (e3, flag1) =>
    let st4 := checker_validate_nodesets st2.2
    some (st1.1 + st2.1 + e3 + st4.1, st4.2, flag1)

/-- `netlist_checker`: the global checker.  Builds the template registry,
runs `netlist_checker_intern` on the main list, on the registry list and on
each template body, validates the actions, and, exactly when the
accumulated error count is zero, expands the subcircuits.  Returns the
exit code (0 on success, -1 on errors) with the final definition list and
registry. -/
def netlist_checker (tenPow : ℚ → ℚ) (avail : List define_t) (fuel : Nat)
    (defs regs : List definition_t) (flag : Int) :
    Option (Int × List definition_t × List definition_t) := do
  let b ← checker_build_subcircuits fuel defs regs
  let (e1, root1, flag1) ← netlist_checker_intern tenPow avail b.2 fuel b.1 flag
  let (e2, reg1, flag2) ← netlist_checker_intern tenPow avail b.2 fuel b.2 flag1
  let (e3, reg2, flag3) ←
    (List.range reg1.length).foldlM
      (fun (st : Nat × List definition_t × Int) k =>
        match st.2.1.get? k with
        | none => some st
        | some tmpl =>
          (netlist_checker_intern tenPow avail st.2.1 fuel tmpl.sub
              st.2.2).map
            (fun r =>
              (st.1 + r.1, modifyIdx (fun t => { t with sub := r.2.1 }) k
                st.2.1, r.2.2)))
      ((0 : Nat), reg1, flag2)
  let (e4, root2) ← checker_validate_actions tenPow reg2 flag3 fuel root1
  let errors := e1 + e2 + e3 + e4
  if errors = 0 then do
    let root3 ← checker_expand_subcircuits reg2 fuel root2
    some ((0 : Int), root3, reg2)
  else
    some ((-1 : Int), root2, reg2)

/-! Concrete netlist fixtures used by the example-based theorems below. -/

/-- Fixture: a plain named node. -/
def mkNode (s : String) : node_t := { node := some s }

/-- Fixture: a single-valued identifier property. -/
def mkIdentPair (k v : String) : pair_t := ⟨k, [{ ident := some v }]⟩

/-- Fixture: a single-valued numeric property. -/
def mkNumPair (k : String) (q : ℚ) : pair_t := ⟨k, [{ value := q }]⟩

/-- Fixture: a component statement with the given type, instance, nodes,
properties and (for templates) body. -/
def mkStmt (t i : String) (ns : List String) (ps : List pair_t)
    (body : List definition_t) : definition_t :=
  { type := t, inst := i, nodes := ns.map mkNode, pairs := ps, sub := body }

/-- Fixture: a subcircuit instance referencing template `t`. -/
def subInst (i t : String) (ns : List String) : definition_t :=
  mkStmt "Sub" i ns [mkIdentPair "Type" t] []

/-! Claim C5: unit-scale folding. -/

/-- Auxiliary: the scale of a folded value is always consumed. -/
theorem checker_evaluate_scale_scale_none (tenPow : ℚ → ℚ) (v : value_t) :
    (checker_evaluate_scale tenPow v).scale = none := by
  cases hs : v.scale with
  | none => simp only [checker_evaluate_scale, hs]
  | some s => simp only [checker_evaluate_scale, hs]

/-- Auxiliary: folding a value without scale only multiplies by one. -/
theorem checker_evaluate_scale_of_none (tenPow : ℚ → ℚ) (v : value_t)
    (h : v.scale = none) :
    checker_evaluate_scale tenPow v = { v with value := v.value * 1 } := by
  simp [checker_evaluate_scale, h]

/-- Claim C5, counterexample: the claim asserts that `"3dBm"` folds to
`10^(3/10)` with the unit string `"m"` retained.  In the code the trailing
`m` is consumed into a `1e-3` factor and no residual unit remains: with
`tenPow` chosen as the constant function 2 (standing for `10^(3/10)`), the
folded value is `2/1000`, not `2`, and the residual unit is empty, not
`"m"`. -/
theorem claim_C5_counterexample :
    (checker_evaluate_scale (fun _ => 2)
        { value := 3, scale := some "dBm" }).unit = none ∧
    (none : Option String) ≠ some "m" ∧
    (checker_evaluate_scale (fun _ => 2)
        { value := 3, scale := some "dBm" }).value = 1 / 500 ∧
    ((1 : ℚ) / 500) ≠ 2 := by
  have h : (checker_evaluate_scale (fun _ => 2)
      { value := 3, scale := some "dBm" }).value = 2 * ((10 : ℚ) ^ (3 : ℕ))⁻¹ :=
    rfl
  refine ⟨rfl, by simp, ?_, by norm_num⟩
  rw [h]
  norm_num

/-- Claim C5, amended: `"1k"` on a base property folds to `1000` with empty
residual unit; `"3dBm"` folds to `10^(3/10) * 10^(-3)` (the trailing `m` is
consumed as a milli factor) with empty residual unit; folding is
idempotent. -/
theorem claim_C5 (tenPow : ℚ → ℚ) (u : Nat) (s : Bool) :
    (checker_evaluate_scale tenPow
        { value := 1, ident := none, scale := some "k", unit := none,
          var := u, subst := s } =
      { value := 1000, ident := none, scale := none, unit := none,
        var := u, subst := s }) ∧
    (checker_evaluate_scale tenPow
        { value := 3, ident := none, scale := some "dBm", unit := none,
          var := u, subst := s } =
      { value := tenPow (3 / 10) * (1 / 1000), ident := none, scale := none,
        unit := none, var := u, subst := s }) ∧
    (∀ v, checker_evaluate_scale tenPow (checker_evaluate_scale tenPow v) =
      checker_evaluate_scale tenPow v) := by
  have ha : checker_evaluate_scale tenPow
      { value := 1, ident := none, scale := some "k", unit := none,
        var := u, subst := s } =
      { value := 1 * (10 : ℚ) ^ (3 : ℕ), ident := none, scale := none,
        unit := none, var := u, subst := s } := rfl
  have hb : checker_evaluate_scale tenPow
      { value := 3, ident := none, scale := some "dBm", unit := none,
        var := u, subst := s } =
      { value := tenPow (3 / 10) * ((10 : ℚ) ^ (3 : ℕ))⁻¹, ident := none,
        scale := none, unit := none, var := u, subst := s } := rfl
  refine ⟨?_, ?_, ?_⟩
  · rw [ha]
    simp only [value_t.mk.injEq, and_true, true_and]
    norm_num
  · rw [hb]
    simp only [value_t.mk.injEq, and_true, true_and]
    ring_nf
  · intro v
    rw [checker_evaluate_scale_of_none tenPow _
      (checker_evaluate_scale_scale_none tenPow v)]
    simp

/-! Claim C4: node renaming under two-level nested expansion. -/

/-- Fixture (C4): body element of template `Inner`, touching the formal
port `q`, the purely internal node `n1` and the ground node. -/
def c4Body : definition_t := mkStmt "R" "R1" ["q", "n1", "gnd"] [] []

/-- Fixture (C4): template `Inner` with formal port `q`. -/
def c4Inner : definition_t := mkStmt "Def" "Inner" ["q"] [] [c4Body]

/-- Fixture (C4): enclosing template with formal port `p`, containing
instance `innerInst` of `Inner` wired straight through to `p`. -/
def c4Top : definition_t :=
  mkStmt "Def" "Top" ["p"] [] [subInst "innerInst" "Inner" ["p"]]

/-- Fixture (C4): top-level instance `outer` with external node `ext`. -/
def c4Outer : definition_t := subInst "outer" "Top" ["ext"]

/-- Claim C4: expanding instance `outer` of the enclosing template (whose
body instantiates `innerInst` of `Inner`) renames `Inner`'s purely
internal node `n1` to `Inner.outer.innerInst.n1`, resolves the formal port
wired through to `outer`'s external node to `ext`, and passes `gnd`
through unchanged. -/
theorem claim_C4 :
    (checker_expand_subcircuits [c4Top, c4Inner] 10 [c4Outer]).map
        (fun l => l.map (fun d => (d.inst, d.nodes.map (·.node)))) =
      some [("Inner.outer.innerInst.R1",
        [some "ext", some "Inner.outer.innerInst.n1", some "gnd"])] := rfl

/-! Claim C7: placement and order of expanded statements. -/

/-- Fixture (C7): template `S` with the two-element body `[R1, C1]`. -/
def c7Tmpl : definition_t :=
  mkStmt "Def" "S" ["a"] []
    [mkStmt "R" "R1" ["a", "x"] [] [], mkStmt "C" "C1" ["x", "gnd"] [] []]

/-- Fixture (C7): an ordinary statement preceding the `Sub` instance. -/
def c7V1 : definition_t := mkStmt "V" "V1" ["n", "gnd"] [] []

/-- Claim C7, counterexample: expanding `[V1, Sub s]` against template `S`
with body `[R1, C1]` yields the copies at the head of the list and in
reverse body order, `[S.s.C1, S.s.R1, V1]` — not spliced in place of the
`Sub` statement in original body order, which would be
`[V1, S.s.R1, S.s.C1]`. -/
theorem claim_C7_counterexample :
    (checker_expand_subcircuits [c7Tmpl] 10 [c7V1, subInst "s" "S" ["n"]]).map
        (fun l => l.map (·.inst)) =
      some ["S.s.C1", "S.s.R1", "V1"] ∧
    some ["S.s.C1", "S.s.R1", "V1"] ≠
      (some ["V1", "S.s.R1", "S.s.C1"] : Option (List String)) := by
  exact ⟨rfl, by simp⟩

/-- The flattened copy `checker_copy_subcircuits` produces for one non-`Sub`
body element `d` of template `T` at the outermost level (empty instance
path) of instance `s`. -/
def flatCopyOf (T s d : definition_t) : definition_t :=
  let d1 := checker_xlat_subcircuit_nodes T s d
  checker_copy_subcircuit_nodes T s d1
    { checker_copy_subcircuit d1 with
      inst := checker_subcircuit_instance T.inst
        (checker_subcircuit_instance_list []) s.inst d1.inst
      subcircuit := some T.inst }
    (checker_subcircuit_instance_list [])

/-- Node translation leaves the statement type unchanged. -/
theorem xlat_type (T s d : definition_t) :
    (checker_xlat_subcircuit_nodes T s d).type = d.type := rfl

/-- The type of a flattened copy is the type of the body element. -/
theorem flatCopyOf_type (T s d : definition_t) :
    (flatCopyOf T s d).type = d.type := rfl

/-- Copying a `Sub`-free body produces exactly the copies of the elements,
prepended in order (hence accumulated in reverse). -/
theorem copySubLoopF_flat (recur : definition_t → definition_t →
      List String → Option (List definition_t × List String))
    (registry : List definition_t) (T s : definition_t) :
    ∀ body root, (∀ d ∈ body, d.type ≠ "Sub") →
    copySubLoopF recur registry T s body root [] =
      some ((body.map (flatCopyOf T s)).reverse ++ root, []) := by
  intro body
  induction body with
  | nil => intro root _; rfl
  | cons d ds ih =>
    intro root hflat
    have hd : d.type ≠ "Sub" := hflat d (List.mem_cons_self d ds)
    have hds : ∀ x ∈ ds, x.type ≠ "Sub" := fun x hx =>
      hflat x (List.mem_cons_of_mem d hx)
    rw [copySubLoopF]
    rw [if_neg (by rw [xlat_type]; exact fun h => hd h)]
    rw [ih _ hds]
    simp [flatCopyOf, List.append_assoc]

/-- Scanning a `Sub`-free remainder appends it behind the prefix. -/
theorem expandLoop_noSub (registry : List definition_t) :
    ∀ rest fuel pre out, (∀ d ∈ rest, d.type ≠ "Sub") →
    expandLoop registry fuel pre rest = some out →
    out = pre ++ rest := by
  intro rest
  induction rest with
  | nil =>
    intro fuel pre out _ h
    cases fuel <;> simp [expandLoop] at h <;> simp [h.symm]
  | cons d ds ih =>
    intro fuel pre out hflat h
    have hd : d.type ≠ "Sub" := hflat d (List.mem_cons_self d ds)
    have hds : ∀ x ∈ ds, x.type ≠ "Sub" := fun x hx =>
      hflat x (List.mem_cons_of_mem d hx)
    cases fuel with
    | zero => simp [expandLoop] at h
    | succ f =>
      rw [expandLoop, if_neg (fun hh => hd hh)] at h
      have := ih f (pre ++ [d]) out hds h
      simp [this, List.append_assoc]

/-- Scanning over a `Sub`-free prefix towards the unique `Sub` statement:
the flattened copies of the (flat) template body end up, reversed, at the
head of the final list. -/
theorem expandLoop_one_sub (registry : List definition_t)
    (s T : definition_t) (hs : s.type = "Sub")
    (hT : checker_get_subcircuit registry s = some T)
    (hbody : ∀ d ∈ T.sub, d.type ≠ "Sub") :
    ∀ pre fuel pre0 post out,
    (∀ d ∈ pre0, d.type ≠ "Sub") →
    (∀ d ∈ pre, d.type ≠ "Sub") → (∀ d ∈ post, d.type ≠ "Sub") →
    expandLoop registry fuel pre0 (pre ++ s :: post) = some out →
    out = (T.sub.map (flatCopyOf T s)).reverse ++ (pre0 ++ pre) ++ post := by
  intro pre
  induction pre with
  | nil =>
    intro fuel pre0 post out hpre0 _ hpost h
    cases fuel with
    | zero => simp [expandLoop] at h
    | succ f =>
      rw [List.nil_append] at h
      rw [expandLoop, if_pos hs, hT] at h
      dsimp only at h
      rw [show checker_copy_subcircuits registry (f + 1) T s [] =
          copySubLoopF (checker_copy_subcircuits registry f) registry T s
            T.sub [] [] from rfl] at h
      rw [copySubLoopF_flat _ registry T s T.sub [] hbody] at h
      simp only [List.append_nil] at h
      by_cases hemp : (T.sub.map (flatCopyOf T s)).reverse = []
      · rw [hemp] at h
        simp only [List.isEmpty_nil, if_true] at h
        have := expandLoop_noSub registry post f pre0 out hpost h
        simp [this, hemp]
      · rw [if_neg (by simpa [List.isEmpty_iff] using hemp)] at h
        have hrest : ∀ d ∈ pre0 ++ post, d.type ≠ "Sub" := by
          intro d hd
          rcases List.mem_append.mp hd with h1 | h2
          · exact hpre0 d h1
          · exact hpost d h2
        have := expandLoop_noSub registry (pre0 ++ post) f
          ((T.sub.map (flatCopyOf T s)).reverse) out hrest h
        simp [this, List.append_assoc]
  | cons d ds ih =>
    intro fuel pre0 post out hpre0 hpre hpost h
    have hd : d.type ≠ "Sub" := hpre d (List.mem_cons_self d ds)
    have hds : ∀ x ∈ ds, x.type ≠ "Sub" := fun x hx =>
      hpre x (List.mem_cons_of_mem d hx)
    have hpre0' : ∀ x ∈ pre0 ++ [d], x.type ≠ "Sub" := by
      intro x hx
      rcases List.mem_append.mp hx with h1 | h2
      · exact hpre0 x h1
      · rw [List.mem_singleton.mp h2]
        exact hd
    cases fuel with
    | zero => simp [expandLoop] at h
    | succ f =>
      rw [List.cons_append] at h
      rw [expandLoop, if_neg (fun hh => hd hh)] at h
      have := ih f (pre0 ++ [d]) post out hpre0' hds hpost h
      simp [this, List.append_assoc]

/-- Claim C7, amended: when a subcircuit instance is expanded, the
flattened statements produced from the template body are spliced at the
head of the whole statement list in reverse body order (the original `Sub`
statement is removed and freed); the relative order of the body statements
is reversed, not preserved, in the flat output.  Stated for a single `Sub`
instance of a template with a `Sub`-free body. -/
theorem claim_C7 (registry : List definition_t) (fuel : Nat)
    (pre post : List definition_t) (s T : definition_t)
    (out : List definition_t)
    (hs : s.type = "Sub")
    (hT : checker_get_subcircuit registry s = some T)
    (hbody : ∀ d ∈ T.sub, d.type ≠ "Sub")
    (hpre : ∀ d ∈ pre, d.type ≠ "Sub")
    (hpost : ∀ d ∈ post, d.type ≠ "Sub")
    (hrun : checker_expand_subcircuits registry fuel (pre ++ s :: post) =
      some out) :
    out = (T.sub.map (flatCopyOf T s)).reverse ++ pre ++ post := by
  have := expandLoop_one_sub registry s T hs hT hbody pre fuel [] post out
    (by simp) hpre hpost hrun
  simpa [List.append_assoc] using this

/-- Claim C7, witness: the amended theorem applied to the concrete netlist
`[V1, Sub s]` with template body `[R1, C1]`. -/
theorem claim_C7_witness :
    (c7Tmpl.sub.map (flatCopyOf c7Tmpl (subInst "s" "S" ["n"]))).reverse
        ++ [c7V1] ++ [] =
      (c7Tmpl.sub.map (flatCopyOf c7Tmpl (subInst "s" "S" ["n"]))).reverse
        ++ [c7V1] ++ [] :=
  claim_C7 [c7Tmpl] 10 [c7V1] [] (subInst "s" "S" ["n"]) c7Tmpl
    ((c7Tmpl.sub.map (flatCopyOf c7Tmpl (subInst "s" "S" ["n"]))).reverse
      ++ [c7V1] ++ [])
    rfl rfl (by decide) (by decide) (by decide) rfl

/-! Claim C10: an action-free netlist always fails the action check. -/

/-- A monadic fold over `Option` whose step fixes the state returns the
state. -/
theorem foldlM_option_const {α β : Type} (f : β → α → Option β) (b : β) :
    ∀ l : List α, (∀ a ∈ l, f b a = some b) → l.foldlM f b = some b := by
  intro l
  induction l with
  | nil => intro _; rfl
  | cons a as ih =>
    intro h
    simp only [List.foldlM_cons, h a (List.mem_cons_self a as)]
    exact ih fun x hx => h x (List.mem_cons_of_mem a hx)

/-- An action-free list contains no definitions of action class 1. -/
theorem countDefs_no_actions (root : List definition_t)
    (type : Option String) (hact : ∀ d ∈ root, d.action ≠ 1) :
    checker_count_definitions root type 1 = 0 := by
  apply List.countP_eq_zero.mpr
  intro d hd
  simp [checker_count_definitions, hact d hd]

/-- With no actions, sweep validation finds nothing to check. -/
theorem validate_para_no_actions (root : List definition_t) (fuel : Nat)
    (hact : ∀ d ∈ root, d.action ≠ 1) :
    checker_validate_para root fuel = some 0 := by
  apply foldlM_option_const
  intro d hd
  have hnot : ¬ (d.action = 1 ∧ d.type = "SW") := fun hh => hact d hd hh.1
  rw [validateParaStep, if_neg hnot]

/-- With no actions, sweep-list validation checks nothing and leaves the
list unchanged. -/
theorem validate_lists_no_actions (tenPow : ℚ → ℚ)
    (root : List definition_t) (hact : ∀ d ∈ root, d.action ≠ 1) :
    checker_validate_lists tenPow root = some (0, root) := by
  apply foldlM_option_const
  intro k _
  cases hg : root[k]? with
  | none => simp [validateListsStep, hg]
  | some d =>
    have hd := hact d (List.getElem?_mem hg)
    have hnot : ¬ (d.action = 1 ∧
        (d.type = "SW" ∨ d.type = "AC" ∨ d.type = "SP")) := fun hh => hd hh.1
    simp [validateListsStep, hg, hnot]

/-- Claim C10: a netlist with no action statements at all makes the action
check report an error (missing actions), so its error count is nonzero and
the pass never succeeds on it. -/
theorem claim_C10 (tenPow : ℚ → ℚ) (registry : List definition_t)
    (flag : Int) (fuel : Nat) (root : List definition_t)
    (hact : ∀ d ∈ root, d.action ≠ 1) :
    checker_validate_actions tenPow registry flag fuel root =
      some (1 + checker_validate_ports root, root) ∧
    1 ≤ 1 + checker_validate_ports root := by
  refine ⟨?_, Nat.le_add_right 1 _⟩
  unfold checker_validate_actions
  rw [countDefs_no_actions root none hact,
    validate_para_no_actions root fuel hact,
    validate_lists_no_actions tenPow root hact]
  norm_num [Option.bind]

/-- Claim C10, witness: the action check errors on a one-component,
action-free netlist. -/
theorem claim_C10_witness :
    checker_validate_actions (fun _ => 1) [] 0 1
        [mkStmt "R" "R1" ["a", "b"] [] []] =
      some (1 + checker_validate_ports [mkStmt "R" "R1" ["a", "b"] [] []],
        [mkStmt "R" "R1" ["a", "b"] [] []]) ∧
    1 ≤ 1 + checker_validate_ports [mkStmt "R" "R1" ["a", "b"] [] []] :=
  claim_C10 _ _ _ _ _ (by decide)

/-! Claim C9: the sweep-list check is total exactly when every SW/AC/SP
action carries an identifier-valued `Type` property. -/

/-- The part of a pair the sweep-list check's control flow depends on:
its key and the identifier slots of its values. -/
def pairShape (p : pair_t) : String × List (Option String) :=
  (p.key, p.values.map (·.ident))

/-- The part of a definition the sweep-list check's control flow depends
on: type, action class and the pair shapes. -/
def defShape (d : definition_t) :
    String × Nat × List (String × List (Option String)) :=
  (d.type, d.action, d.pairs.map pairShape)

/-- Scale folding never touches the identifier slot. -/
theorem checker_evaluate_scale_ident (tenPow : ℚ → ℚ) (v : value_t) :
    (checker_evaluate_scale tenPow v).ident = v.ident := by
  cases hs : v.scale with
  | none => simp only [checker_evaluate_scale, hs]
  | some s => simp only [checker_evaluate_scale, hs]

/-- Modifying one element with an observation-preserving function
preserves the observed list. -/
theorem map_modifyIdx_of_invariant {α β : Type} (f : α → α) (g : α → β)
    (h : ∀ x, g (f x) = g x) : ∀ (n : Nat) (l : List α),
    (modifyIdx f n l).map g = l.map g := by
  intro n l
  induction l generalizing n with
  | nil => simp [modifyIdx]
  | cons a as ih =>
    cases n with
    | zero => simp [modifyIdx, h]
    | succ m => simp [modifyIdx, ih]

/-- The `Values`-chain mutation of the sweep-list check preserves the
definition shape. -/
theorem retag_defShape (tenPow : ℚ → ℚ) (j : Nat) (d : definition_t) :
    defShape (retagAndFoldValues tenPow j d) = defShape d := by
  unfold defShape retagAndFoldValues
  simp only [Prod.mk.injEq, true_and]
  apply map_modifyIdx_of_invariant
  intro p
  unfold pairShape
  simp only [Prod.mk.injEq, true_and]
  rw [List.map_map]
  have hcomp : ((fun v : value_t => v.ident) ∘ checker_evaluate_scale tenPow) =
      fun v : value_t => v.ident := funext (checker_evaluate_scale_ident tenPow)
  rw [hcomp]
  exact map_modifyIdx_of_invariant
    (fun v => { v with var := TAG_VECTOR }) (fun v : value_t => v.ident)
    (fun _ => rfl) 0 p.values

/-- Whether a pair yields a reference is determined by its shape. -/
theorem findRefPair_isSome_shape (key : String) (p q : pair_t)
    (h : pairShape p = pairShape q) :
    (findRefPair key p).isSome = (findRefPair key q).isSome := by
  unfold pairShape at h
  simp only [Prod.mk.injEq] at h
  obtain ⟨hk, hv⟩ := h
  unfold findRefPair
  rw [hk]
  by_cases hkey : q.key = key
  · simp only [if_pos hkey]
    have hhead : p.values.head?.map (·.ident) = q.values.head?.map (·.ident) := by
      rw [← List.head?_map, ← List.head?_map, hv]
    cases hp : p.values.head? with
    | none =>
      cases hq : q.values.head? with
      | none => rfl
      | some w => rw [hp, hq] at hhead; simp at hhead
    | some v =>
      cases hq : q.values.head? with
      | none => rw [hp, hq] at hhead; simp at hhead
      | some w =>
        rw [hp, hq] at hhead
        simp only [Option.map_some', Option.some.injEq] at hhead
        dsimp only
        rw [hhead]
        cases w.ident <;> simp
  · simp [if_neg hkey]

/-- Whether a pair list yields a reference is determined by the pair
shapes. -/
theorem findSome?_findRefPair_shape (key : String) :
    ∀ (ps qs : List pair_t), ps.map pairShape = qs.map pairShape →
    (ps.findSome? (findRefPair key)).isSome =
      (qs.findSome? (findRefPair key)).isSome := by
  intro ps
  induction ps with
  | nil =>
    intro qs h
    cases qs with
    | nil => rfl
    | cons q qs2 => simp at h
  | cons p ps ih =>
    intro qs h
    cases qs with
    | nil => simp at h
    | cons q qs2 =>
      simp only [List.map_cons, List.cons.injEq] at h
      obtain ⟨h1, h2⟩ := h
      rw [List.findSome?_cons, List.findSome?_cons]
      have hps := findRefPair_isSome_shape key p q h1
      cases hp : findRefPair key p with
      | some v =>
        cases hq : findRefPair key q with
        | some w => simp
        | none => rw [hp, hq] at hps; simp at hps
      | none =>
        cases hq : findRefPair key q with
        | some w => rw [hp, hq] at hps; simp at hps
        | none => exact ih qs2 h2

/-- Whether a definition carries a `key` reference is determined by its
shape. -/
theorem checker_find_reference_isSome_shape (d d' : definition_t)
    (key : String) (h : defShape d = defShape d') :
    (checker_find_reference d key).isSome =
      (checker_find_reference d' key).isSome := by
  unfold checker_find_reference
  apply findSome?_findRefPair_shape
  have := congrArg (fun t : String × Nat ×
    List (String × List (Option String)) => t.2.2) h
  simpa [defShape] using this

/-- The relevance test of the sweep-list check. -/
def listsRelevant (d : definition_t) : Prop :=
  d.action = 1 ∧ (d.type = "SW" ∨ d.type = "AC" ∨ d.type = "SP")

/-- Relevance is determined by the shape. -/
theorem listsRelevant_shape (d d' : definition_t)
    (h : defShape d = defShape d') : listsRelevant d ↔ listsRelevant d' := by
  have ht := congrArg (fun t : String × Nat ×
    List (String × List (Option String)) => t.1) h
  have ha := congrArg (fun t : String × Nat ×
    List (String × List (Option String)) => t.2.1) h
  simp only [defShape] at ht ha
  unfold listsRelevant
  rw [ht, ha]

/-- When the examined definition is a relevant action with a `Type`
reference, the sweep-list step succeeds and preserves the definition
shapes. -/
theorem validateListsStep_some_of (tenPow : ℚ → ℚ) (e : Nat)
    (cur : List definition_t) (k : Nat) (d : definition_t) (val : value_t)
    (hk : cur.get? k = some d) (hrel : listsRelevant d)
    (hval : checker_find_reference d "Type" = some val) :
    ∃ e' cur', validateListsStep tenPow (e, cur) k = some (e', cur') ∧
      cur'.map defShape = cur.map defShape := by
  unfold validateListsStep
  dsimp only
  rw [hk]
  dsimp only
  rw [if_pos (show d.action = 1 ∧ (d.type = "SW" ∨ d.type = "AC" ∨ d.type = "SP") from hrel), hval]
  dsimp only
  by_cases h1 : val.ident = some "const" ∨ val.ident = some "list"
  · rw [if_pos h1]
    cases hj : findPropPairIdx d "Values" with
    | none =>
      dsimp only
      exact ⟨_, _, rfl, rfl⟩
    | some j =>
      dsimp only
      refine ⟨_, _, rfl, ?_⟩
      exact map_modifyIdx_of_invariant _ _ (retag_defShape tenPow j) k cur
  · rw [if_neg h1]
    by_cases h2 : val.ident = some "lin" ∨ val.ident = some "log"
    · rw [if_pos h2]
      exact ⟨_, _, rfl, rfl⟩
    · rw [if_neg h2]
      exact ⟨_, _, rfl, rfl⟩

/-- The sweep-list fold succeeds exactly when every relevant definition
(looked up through the unchanged shapes in the original list) carries a
`Type` reference. -/
theorem validate_lists_fold (tenPow : ℚ → ℚ) (root : List definition_t) :
    ∀ (ks : List Nat) (e : Nat) (cur : List definition_t),
    cur.map defShape = root.map defShape →
    ((ks.foldlM (validateListsStep tenPow) (e, cur)).isSome ↔
      ∀ k ∈ ks, ∀ d, root.get? k = some d → listsRelevant d →
        (checker_find_reference d "Type").isSome) := by
  intro ks
  induction ks with
  | nil => intro e cur _; simp
  | cons k ks ih =>
    intro e cur hshape
    have hidx : (cur.get? k).map defShape = (root.get? k).map defShape := by
      rw [List.get?_eq_getElem?, List.get?_eq_getElem?, ← List.getElem?_map,
        ← List.getElem?_map, hshape]
    rw [List.foldlM_cons]
    cases hk : cur.get? k with
    | none =>
      have hroot : root.get? k = none := by
        rw [hk] at hidx
        cases hr : root.get? k with
        | none => rfl
        | some d0 => rw [hr] at hidx; simp at hidx
      have hstep : validateListsStep tenPow (e, cur) k = some (e, cur) := by
        unfold validateListsStep
        dsimp only
        rw [hk]
      rw [hstep]
      simp only [Option.bind_eq_bind, Option.some_bind]
      rw [ih e cur hshape]
      constructor
      · intro h k' hk' d hd hrel
        rcases List.mem_cons.mp hk' with rfl | hk2
        · rw [hroot] at hd; cases hd
        · exact h k' hk2 d hd hrel
      · intro h k' hk2 d hd hrel
        exact h k' (List.mem_cons_of_mem _ hk2) d hd hrel
    | some d =>
      obtain ⟨d0, hroot, hsh⟩ :
          ∃ d0, root.get? k = some d0 ∧ defShape d = defShape d0 := by
        rw [hk] at hidx
        cases hr : root.get? k with
        | none => rw [hr] at hidx; simp at hidx
        | some d0 =>
          rw [hr] at hidx
          simp only [Option.map_some', Option.some.injEq] at hidx
          exact ⟨d0, rfl, hidx⟩
      by_cases hrel : listsRelevant d
      · cases hval : checker_find_reference d "Type" with
        | none =>
          have hstep : validateListsStep tenPow (e, cur) k = none := by
            unfold validateListsStep
            dsimp only
            rw [hk]
            dsimp only
            rw [if_pos (show d.action = 1 ∧
              (d.type = "SW" ∨ d.type = "AC" ∨ d.type = "SP") from hrel), hval]
          rw [hstep]
          constructor
          · intro hx
            simp at hx
          · intro h
            exfalso
            have hd0 := h k (List.mem_cons_self k ks) d0 hroot
              ((listsRelevant_shape d d0 hsh).mp hrel)
            rw [← checker_find_reference_isSome_shape d d0 "Type" hsh,
              hval] at hd0
            simp at hd0
        | some val =>
          obtain ⟨e', cur', hstep, hshape'⟩ :=
            validateListsStep_some_of tenPow e cur k d val hk hrel hval
          rw [hstep]
          simp only [Option.bind_eq_bind, Option.some_bind]
          rw [ih e' cur' (hshape'.trans hshape)]
          constructor
          · intro h k' hk' d' hd' hrel'
            rcases List.mem_cons.mp hk' with rfl | hk2
            · rw [hroot] at hd'
              injection hd' with h'
              subst h'
              rw [← checker_find_reference_isSome_shape d d0 "Type" hsh, hval]
              rfl
            · exact h k' hk2 d' hd' hrel'
          · intro h k' hk2 d' hd' hrel'
            exact h k' (List.mem_cons_of_mem _ hk2) d' hd' hrel'
      · have hstep : validateListsStep tenPow (e, cur) k = some (e, cur) := by
          unfold validateListsStep
          dsimp only
          rw [hk]
          dsimp only
          rw [if_neg (show ¬ (d.action = 1 ∧
            (d.type = "SW" ∨ d.type = "AC" ∨ d.type = "SP")) from hrel)]
        rw [hstep]
        simp only [Option.bind_eq_bind, Option.some_bind]
        rw [ih e cur hshape]
        constructor
        · intro h k' hk' d' hd' hrel'
          rcases List.mem_cons.mp hk' with rfl | hk2
          · rw [hroot] at hd'
            injection hd' with h'
            subst h'
            exact absurd ((listsRelevant_shape d d0 hsh).mpr hrel') hrel
          · exact h k' hk2 d' hd' hrel'
        · intro h k' hk2 d' hd' hrel'
          exact h k' (List.mem_cons_of_mem _ hk2) d' hd' hrel'

/-- Claim C9: the sweep-property exclusivity check (`checker_validate_lists`)
is total — its missing-`Type` NULL dereference unreachable — exactly when
every `SW`, `AC` or `SP` action statement carries an identifier-valued
`Type` property. -/
theorem claim_C9 (tenPow : ℚ → ℚ) (root : List definition_t) :
    (checker_validate_lists tenPow root).isSome ↔
      ∀ d ∈ root,
        d.action = 1 ∧ (d.type = "SW" ∨ d.type = "AC" ∨ d.type = "SP") →
        (checker_find_reference d "Type").isSome := by
  unfold checker_validate_lists
  rw [validate_lists_fold tenPow root (List.range root.length) 0 root rfl]
  constructor
  · intro h d hd hrel
    obtain ⟨k, hk⟩ := List.mem_iff_getElem?.mp hd
    have hk' : root.get? k = some d := by
      rw [List.get?_eq_getElem?]
      exact hk
    have hbound : k < root.length := (List.getElem?_eq_some.mp hk).1
    exact h k (List.mem_range.mpr hbound) d hk' hrel
  · intro h k _ d hk hrel
    have hd : d ∈ root := by
      rw [List.get?_eq_getElem?] at hk
      exact List.getElem?_mem hk
    exact h d hd hrel

/-! Claim C6: reference resolution over the six domains. -/

/-- Whether a pair matches a variable lookup is determined by its shape. -/
theorem findVarPair_isSome_shape (key ident : String) (p q : pair_t)
    (h : pairShape p = pairShape q) :
    (findVarPair key ident p).isSome = (findVarPair key ident q).isSome := by
  unfold pairShape at h
  simp only [Prod.mk.injEq] at h
  obtain ⟨hk, hv⟩ := h
  unfold findVarPair
  rw [hk]
  by_cases hkey : q.key = key
  · simp only [if_pos hkey]
    have hhead : p.values.head?.map (·.ident) = q.values.head?.map (·.ident) := by
      rw [← List.head?_map, ← List.head?_map, hv]
    cases hp : p.values.head? with
    | none =>
      cases hq : q.values.head? with
      | none => rfl
      | some w => rw [hp, hq] at hhead; simp at hhead
    | some v =>
      cases hq : q.values.head? with
      | none => rw [hp, hq] at hhead; simp at hhead
      | some w =>
        rw [hp, hq] at hhead
        simp only [Option.map_some', Option.some.injEq] at hhead
        dsimp only
        rw [hhead]
        by_cases hid : w.ident = some ident
        · simp [hid]
        · simp [hid]
  · simp [if_neg hkey]

/-- Whether a pair list matches a variable lookup is determined by the
pair shapes. -/
theorem findSome?_findVarPair_shape (key ident : String) :
    ∀ (ps qs : List pair_t), ps.map pairShape = qs.map pairShape →
    (ps.findSome? (findVarPair key ident)).isSome =
      (qs.findSome? (findVarPair key ident)).isSome := by
  intro ps
  induction ps with
  | nil =>
    intro qs h
    cases qs with
    | nil => rfl
    | cons q qs2 => simp at h
  | cons p ps ih =>
    intro qs h
    cases qs with
    | nil => simp at h
    | cons q qs2 =>
      simp only [List.map_cons, List.cons.injEq] at h
      obtain ⟨h1, h2⟩ := h
      rw [List.findSome?_cons, List.findSome?_cons]
      have hps := findVarPair_isSome_shape key ident p q h1
      cases hp : findVarPair key ident p with
      | some v =>
        cases hq : findVarPair key ident q with
        | some w => simp
        | none => rw [hp, hq] at hps; simp at hps
      | none =>
        cases hq : findVarPair key ident q with
        | some w => rw [hp, hq] at hps; simp at hps
        | none => exact ih qs2 h2

/-- Whether the netlist contains a variable match is determined by the
definition shapes. -/
theorem checker_find_variable_isSome_shape (r1 r2 : List definition_t)
    (type key ident : String) (h : r1.map defShape = r2.map defShape) :
    (checker_find_variable r1 type key ident).isSome =
      (checker_find_variable r2 type key ident).isSome := by
  unfold checker_find_variable
  induction r1 generalizing r2 with
  | nil =>
    cases r2 with
    | nil => rfl
    | cons d2 ds2 => simp at h
  | cons d ds ih =>
    cases r2 with
    | nil => simp at h
    | cons d2 ds2 =>
      simp only [List.map_cons, List.cons.injEq] at h
      obtain ⟨h1, h2⟩ := h
      rw [List.findSome?_cons, List.findSome?_cons]
      have htype : d.type = d2.type := congrArg (fun t : String × Nat ×
        List (String × List (Option String)) => t.1) h1
      have hpairs : d.pairs.map pairShape = d2.pairs.map pairShape := by
        have := congrArg (fun t : String × Nat ×
          List (String × List (Option String)) => t.2.2) h1
        simpa [defShape] using this
      rw [htype]
      by_cases ht : d2.type = type
      · simp only [if_pos ht]
        have hps := findSome?_findVarPair_shape key ident d.pairs d2.pairs hpairs
        cases hp : d.pairs.findSome? (findVarPair key ident) with
        | some v =>
          cases hq : d2.pairs.findSome? (findVarPair key ident) with
          | some w => simp [hp, hq]
          | none => rw [hp, hq] at hps; simp at hps
        | none =>
          cases hq : d2.pairs.findSome? (findVarPair key ident) with
          | some w => rw [hp, hq] at hps; simp at hps
          | none =>
            simp only [hp, hq]
            exact ih ds2 h2
      · simp only [if_neg ht]
        exact ih ds2 h2

/-- Marking a sweep value preserves the pair shapes. -/
theorem markPairValue_shape (key ident : String) (tag : Nat) :
    ∀ ps : List pair_t,
    (markPairValue key ident tag ps).1.map pairShape = ps.map pairShape := by
  intro ps
  induction ps with
  | nil => rfl
  | cons p ps ih =>
    unfold markPairValue
    by_cases hc : p.key = key ∧ (p.values.head?.bind (·.ident)) = some ident
    · rw [if_pos hc]
      simp only [List.map_cons, List.cons.injEq]
      refine ⟨?_, by trivial⟩
      unfold pairShape
      simp only [Prod.mk.injEq, true_and]
      exact map_modifyIdx_of_invariant
        (fun v => { v with var := tag }) (fun v : value_t => v.ident)
        (fun _ => rfl) 0 p.values
    · rw [if_neg hc]
      simp only [List.map_cons, List.cons.injEq]
      exact ⟨by trivial, ih⟩

/-- Marking a sweep value preserves the definition shapes. -/
theorem checker_mark_variable_defShape (type key ident : String) (tag : Nat) :
    ∀ root : List definition_t,
    (checker_mark_variable type key ident tag root).map defShape =
      root.map defShape := by
  intro root
  induction root with
  | nil => rfl
  | cons d ds ih =>
    unfold checker_mark_variable
    by_cases ht : d.type = type
    · rw [if_pos ht]
      dsimp only
      by_cases hm : (markPairValue key ident tag d.pairs).2 = true
      · rw [if_pos hm]
        simp only [List.map_cons, List.cons.injEq]
        refine ⟨?_, by trivial⟩
        unfold defShape
        simp only [Prod.mk.injEq, true_and]
        exact markPairValue_shape key ident tag d.pairs
      · rw [if_neg hm]
        simp only [List.map_cons, List.cons.injEq]
        exact ⟨by trivial, ih⟩
    · rw [if_neg ht]
      simp only [List.map_cons, List.cons.injEq]
      exact ⟨by trivial, ih⟩

/-- Marking a sweep value changes only resolver annotations. -/
theorem markPairValue_erase (key ident : String) (tag : Nat) :
    ∀ ps : List pair_t,
    (markPairValue key ident tag ps).1.map erasePair = ps.map erasePair := by
  intro ps
  induction ps with
  | nil => rfl
  | cons p ps ih =>
    unfold markPairValue
    by_cases hc : p.key = key ∧ (p.values.head?.bind (·.ident)) = some ident
    · rw [if_pos hc]
      simp only [List.map_cons, List.cons.injEq]
      refine ⟨?_, by trivial⟩
      unfold erasePair
      simp only [pair_t.mk.injEq, true_and]
      exact map_modifyIdx_of_invariant
        (fun v => { v with var := tag }) eraseValue
        (fun _ => rfl) 0 p.values
    · rw [if_neg hc]
      simp only [List.map_cons, List.cons.injEq]
      exact ⟨by trivial, ih⟩

/-- Marking a sweep value is annotate-only on the whole list. -/
theorem checker_mark_variable_erase (type key ident : String) (tag : Nat) :
    ∀ root : List definition_t,
    eraseTags (checker_mark_variable type key ident tag root) =
      eraseTags root := by
  intro root
  induction root with
  | nil => rfl
  | cons d ds ih =>
    unfold checker_mark_variable
    by_cases ht : d.type = type
    · rw [if_pos ht]
      dsimp only
      by_cases hm : (markPairValue key ident tag d.pairs).2 = true
      · rw [if_pos hm]
        unfold eraseTags
        simp only [List.map_cons, List.cons.injEq]
        refine ⟨?_, by trivial⟩
        unfold eraseDef
        simp [markPairValue_erase key ident tag d.pairs]
      · rw [if_neg hm]
        unfold eraseTags at ih ⊢
        simp only [List.map_cons, List.cons.injEq]
        exact ⟨by trivial, ih⟩
    · rw [if_neg ht]
      unfold eraseTags at ih ⊢
      simp only [List.map_cons, List.cons.injEq]
      exact ⟨by trivial, ih⟩

/-- The special-value count is determined by the definition shapes. -/
theorem checker_validate_special_shape (r1 r2 : List definition_t)
    (def_ : definition_t) (ident : String)
    (h : r1.map defShape = r2.map defShape) :
    checker_validate_special r1 def_ ident =
      checker_validate_special r2 def_ ident := by
  unfold checker_validate_special
  have hgen : ∀ (sps : List special_t) (found : Nat),
      sps.foldl (fun found sp =>
        if (checker_find_variable r1 sp.type sp.key ident).isSome then
          found + sp.value.count ident
        else found) found =
      sps.foldl (fun found sp =>
        if (checker_find_variable r2 sp.type sp.key ident).isSome then
          found + sp.value.count ident
        else found) found := by
    intro sps
    induction sps with
    | nil => intro found; rfl
    | cons sp sps ih =>
      intro found
      simp only [List.foldl_cons]
      rw [checker_find_variable_isSome_shape r1 r2 sp.type sp.key ident h]
      exact ih _
  exact hgen checker_specials 0

/-- Domain 1 marking preserves the definition shapes. -/
theorem resolveRoot1_defShape (root : List definition_t) (id : String) :
    (resolveRoot1 root id).map defShape = root.map defShape := by
  unfold resolveRoot1
  split
  · exact checker_mark_variable_defShape "SW" "Param" id TAG_DOUBLE root
  · rfl

/-- Domain 1 marking is annotate-only. -/
theorem resolveRoot1_erase (root : List definition_t) (id : String) :
    eraseTags (resolveRoot1 root id) = eraseTags root := by
  unfold resolveRoot1
  split
  · exact checker_mark_variable_erase "SW" "Param" id TAG_DOUBLE root
  · rfl

/-- Claim C6: for every identifier-valued property value the resolver
tries all six resolution domains in the fixed order, accumulating a found
count, and reports an unresolved-identifier error exactly when the value
is an identifier matched by no domain; resolution only annotates values
(the tag-erased definition list is unchanged). -/
theorem claim_C6 (root : List definition_t) (def_ : definition_t)
    (value : value_t) :
    ((checker_resolve_variable root def_ value).ok = false ↔
      ∃ id, value.ident = some id ∧
        ¬ ((checker_find_variable root "SW" "Param" id).isSome ∨
           (checker_find_variable root "SW" "Sim" id).isSome ∨
           (checker_find_substrate def_ id).isSome ∨
           (checker_find_variable root "Sub" "Type" id).isSome ∨
           checker_validate_special root def_ id ≠ 0 ∨
           (checker_find_variable root "SPfile" "File" id).isSome)) ∧
    eraseTags (checker_resolve_variable root def_ value).root =
      eraseTags root := by
  cases hid : value.ident with
  | none =>
    constructor
    · constructor
      · intro hok
        simp [checker_resolve_variable, hid] at hok
      · rintro ⟨id, hide, _⟩
        cases hide
    · simp [checker_resolve_variable, hid]
  | some id =>
    have hshape : (resolveRoot1 root id).map defShape = root.map defShape :=
      resolveRoot1_defShape root id
    have e2 := checker_find_variable_isSome_shape (resolveRoot1 root id) root
      "SW" "Sim" id hshape
    have e4 := checker_find_variable_isSome_shape (resolveRoot1 root id) root
      "Sub" "Type" id hshape
    have e5 := checker_validate_special_shape (resolveRoot1 root id) root
      def_ id hshape
    have e6 := checker_find_variable_isSome_shape (resolveRoot1 root id) root
      "SPfile" "File" id hshape
    constructor
    · simp only [checker_resolve_variable, hid]
      rw [e2, e4, e5, e6]
      rw [decide_eq_false_iff_not]
      constructor
      · intro hsum
        refine ⟨id, rfl, ?_⟩
        intro hcon
        apply hsum
        rcases hcon with h | h | h | h | h | h <;> simp [h]
      · rintro ⟨id2, hid2, hnot⟩
        injection hid2 with hh
        subst hh
        push_neg at hnot
        obtain ⟨n1, n2, n3, n4, n5, n6⟩ := hnot
        simp [n1, n2, n3, n4, n5, n6]
    · simp only [checker_resolve_variable, hid]
      exact resolveRoot1_erase root id

/-! Claim C8: duplicate marking and single reporting. -/

/-- Marks a definition as duplicate. -/
def dupMark (d : definition_t) : definition_t := { d with duplicate := true }

/-- Key match used by the duplicate check. -/
def kmB (t i : String) (e : definition_t) : Bool :=
  decide (e.type = t ∧ e.inst = i)

/-- The marking half of `countDefGo` in isolation. -/
def markDups (t i : String) : Nat → List definition_t → List definition_t
  | _, [] => []
  | c, e :: es =>
    if e.type = t ∧ e.inst = i then
      (if c + 1 > 1 then dupMark e else e) :: markDups t i (c + 1) es
    else e :: markDups t i c es

/-- Flags a list elementwise by absolute position. -/
def markFlags (P : Nat → Bool) : Nat → List definition_t → List definition_t
  | _, [] => []
  | m, d :: ds => (if P m then dupMark d else d) :: markFlags P (m + 1) ds

/-- The count returned by `countDefGo` is the running count plus the number
of key matches. -/
theorem countDefGo_fst (t i : String) :
    ∀ (l : List definition_t) (c : Nat),
    (countDefGo t i l c).1 = c + l.countP (kmB t i) := by
  intro l
  induction l with
  | nil => intro c; simp [countDefGo]
  | cons e es ih =>
    intro c
    unfold countDefGo
    by_cases hm : e.type = t ∧ e.inst = i
    · rw [if_pos hm]
      dsimp only
      rw [ih]
      have hb : kmB t i e = true := decide_eq_true hm
      simp [List.countP_cons, hb]
      omega
    · rw [if_neg hm]
      dsimp only
      rw [ih]
      have hb : kmB t i e = false := decide_eq_false hm
      simp [List.countP_cons, hb]

/-- The list returned by `countDefGo` is the marking pass in isolation. -/
theorem countDefGo_snd (t i : String) :
    ∀ (l : List definition_t) (c : Nat),
    (countDefGo t i l c).2 = markDups t i c l := by
  intro l
  induction l with
  | nil => intro c; rfl
  | cons e es ih =>
    intro c
    unfold countDefGo markDups
    by_cases hm : e.type = t ∧ e.inst = i
    · rw [if_pos hm, if_pos hm]
      dsimp only
      rw [ih]
      rfl
    · rw [if_neg hm, if_neg hm]
      dsimp only
      rw [ih]

/-- Positional reading of `markFlags`. -/
theorem markFlags_get? (P : Nat → Bool) :
    ∀ (l : List definition_t) (m0 m : Nat),
    (markFlags P m0 l).get? m =
      (l.get? m).map (fun d => if P (m0 + m) then dupMark d else d) := by
  intro l
  induction l with
  | nil => intro m0 m; simp [markFlags]
  | cons d ds ih =>
    intro m0 m
    cases m with
    | zero => simp [markFlags]
    | succ m2 =>
      simp only [markFlags, List.get?_cons_succ]
      rw [ih (m0 + 1) m2]
      have harith : m0 + 1 + m2 = m0 + (m2 + 1) := by omega
      rw [harith]

/-- `markFlags` preserves flag-blind counts. -/
theorem markFlags_countP (P : Nat → Bool) (q : definition_t → Bool)
    (hq : ∀ d, q (dupMark d) = q d) :
    ∀ (l : List definition_t) (m0 : Nat),
    (markFlags P m0 l).countP q = l.countP q := by
  intro l
  induction l with
  | nil => intro m0; rfl
  | cons d ds ih =>
    intro m0
    simp only [markFlags, List.countP_cons, ih]
    by_cases hp : P m0 <;> simp [hp, hq]

/-- `markFlags` preserves length. -/
theorem markFlags_length (P : Nat → Bool) :
    ∀ (l : List definition_t) (m0 : Nat),
    (markFlags P m0 l).length = l.length := by
  intro l
  induction l with
  | nil => intro m0; rfl
  | cons d ds ih => intro m0; simp [markFlags, ih]

/-- Two flaggings with positionwise equal predicates agree. -/
theorem markFlags_congr (P Q : Nat → Bool) :
    ∀ (l : List definition_t) (m0 : Nat),
    (∀ m, m < l.length → P (m0 + m) = Q (m0 + m)) →
    markFlags P m0 l = markFlags Q m0 l := by
  intro l
  induction l with
  | nil => intro m0 _; rfl
  | cons d ds ih =>
    intro m0 h
    simp only [markFlags]
    have h0 : P m0 = Q m0 := by
      have := h 0 (by simp)
      simpa using this
    rw [h0, ih (m0 + 1) (fun m hm => by
      have := h (m + 1) (by simpa using Nat.succ_lt_succ hm)
      simpa [Nat.add_assoc, Nat.add_comm 1 m] using this)]

/-- Flagging with an always-false predicate is the identity. -/
theorem markFlags_false (P : Nat → Bool) :
    ∀ (l : List definition_t) (m0 : Nat), (∀ m, P m = false) →
    markFlags P m0 l = l := by
  intro l
  induction l with
  | nil => intro m0 _; rfl
  | cons d ds ih =>
    intro m0 h
    simp only [markFlags, h m0]
    simp [ih (m0 + 1) h]

/-- Count-based duplicate marking commutes with positional flagging. -/
theorem markDups_markFlags_comm (t i : String) (P : Nat → Bool) :
    ∀ (l : List definition_t) (c m0 : Nat),
    markDups t i c (markFlags P m0 l) = markFlags P m0 (markDups t i c l) := by
  intro l
  induction l with
  | nil => intro c m0; rfl
  | cons e es ih =>
    intro c m0
    by_cases hp : P m0 = true
    · by_cases hm : e.type = t ∧ e.inst = i
      · have hm2 : (dupMark e).type = t ∧ (dupMark e).inst = i := hm
        simp only [markFlags, markDups, hp, if_true, if_pos hm, if_pos hm2]
        by_cases hc : c + 1 > 1
        · simp only [if_pos hc, ih]
        · simp only [if_neg hc, ih]
      · have hm2 : ¬ ((dupMark e).type = t ∧ (dupMark e).inst = i) := hm
        simp only [markFlags, markDups, hp, if_true, if_neg hm, if_neg hm2, ih]
    · have hp2 : P m0 = false := by simpa using hp
      by_cases hm : e.type = t ∧ e.inst = i
      · simp only [markFlags, markDups, hp2, Bool.false_eq_true, if_false,
          if_pos hm, ih]
      · simp only [markFlags, markDups, hp2, Bool.false_eq_true, if_false,
          if_neg hm, ih]

/-- `markDups` preserves length. -/
theorem markDups_length (t i : String) :
    ∀ (l : List definition_t) (c : Nat), (markDups t i c l).length = l.length := by
  intro l
  induction l with
  | nil => intro c; rfl
  | cons e es ih =>
    intro c
    by_cases hm : e.type = t ∧ e.inst = i
    · simp [markDups, if_pos hm, ih]
    · simp [markDups, if_neg hm, ih]

/-- Positional reading of `markDups`: an element is marked exactly when it
matches the key and some match exists before it (or the running count is
already positive). -/
theorem markDups_get? (t i : String) :
    ∀ (l : List definition_t) (c m : Nat),
    (markDups t i c l).get? m =
      (l.get? m).map (fun e =>
        if (e.type = t ∧ e.inst = i) ∧
            0 < c + (l.take m).countP (kmB t i) then dupMark e else e) := by
  intro l
  induction l with
  | nil => intro c m; simp [markDups]
  | cons e es ih =>
    intro c m
    cases m with
    | zero =>
      by_cases hm : e.type = t ∧ e.inst = i
      · simp only [markDups, if_pos hm, List.get?_cons_zero, List.take_zero,
          List.countP_nil, Nat.add_zero, Option.map_some']
        by_cases hc : 0 < c
        · rw [if_pos (by omega : c + 1 > 1), if_pos ⟨hm, hc⟩]
        · rw [if_neg (by omega : ¬ c + 1 > 1), if_neg (by
            rintro ⟨_, hcc⟩
            omega)]
      · simp only [markDups, if_neg hm, List.get?_cons_zero, Option.map_some']
        rw [if_neg (by rintro ⟨hmm, _⟩; exact hm hmm)]
    | succ m2 =>
      by_cases hm : e.type = t ∧ e.inst = i
      · have hb : kmB t i e = true := decide_eq_true hm
        simp only [markDups, if_pos hm, List.get?_cons_succ]
        rw [ih (c + 1) m2]
        have harith : ∀ x : Nat, c + 1 + x = c + (x + 1) := by omega
        simp [List.take_succ_cons, List.countP_cons, hb, harith]
      · have hb : kmB t i e = false := decide_eq_false hm
        simp only [markDups, if_neg hm, List.get?_cons_succ]
        rw [ih c m2]
        simp [List.take_succ_cons, List.countP_cons, hb]

/-- Same (type, instance) key at two positions of the list. -/
def sameKeyIdxB (root : List definition_t) (j m : Nat) : Bool :=
  match root.get? j, root.get? m with
  | some a, some b => decide (a.type = b.type ∧ a.inst = b.inst)
  | _, _ => false

/-- Some strictly earlier position shares position `m`'s key: position `m`
is an occurrence beyond the first of its (type, instance) pair. -/
def beyondFirstB (root : List definition_t) (m : Nat) : Bool :=
  (List.range m).any (fun j => sameKeyIdxB root j m)

/-- Duplicate flag accumulated at position `m` after the duplicate pass has
processed the first `k` top-level statements. -/
def MBb (root : List definition_t) (k m : Nat) : Bool :=
  (List.range (min m k)).any (fun j => sameKeyIdxB root j m)

/-- The duplicate-definition error is raised at position `k`: its key occurs
at least twice and `k` is the first occurrence of that key. -/
def dupErrAtB (root : List definition_t) (k : Nat) : Bool :=
  match root.get? k with
  | some d =>
    decide (2 ≤ root.countP (kmB d.type d.inst)) && ! beyondFirstB root k
  | none => false

/-- A prefix has a `p`-positive count exactly when some position below the
cut satisfies `p`. -/
theorem take_countP_pos (p : definition_t → Bool) :
    ∀ (l : List definition_t) (m : Nat),
    0 < (l.take m).countP p ↔
      ∃ j, j < m ∧ ∃ a, l.get? j = some a ∧ p a = true := by
  intro l
  induction l with
  | nil => intro m; simp
  | cons d ds ih =>
    intro m
    cases m with
    | zero => simp
    | succ m2 =>
      simp only [List.take_succ_cons, List.countP_cons]
      constructor
      · intro h
        by_cases hd : p d = true
        · exact ⟨0, Nat.succ_pos _, d, rfl, hd⟩
        · have hh : 0 < (ds.take m2).countP p := by
            rw [if_neg hd] at h
            omega
          obtain ⟨j, hj, a, ha, hp⟩ := (ih m2).mp hh
          exact ⟨j + 1, Nat.succ_lt_succ hj, a, by simpa using ha, hp⟩
      · rintro ⟨j, hj, a, ha, hp⟩
        cases j with
        | zero =>
          have had : d = a := by simpa using ha
          subst had
          simp [hp]
        | succ j2 =>
          have hh : 0 < (ds.take m2).countP p :=
            (ih m2).mpr ⟨j2, Nat.lt_of_succ_lt_succ hj, a, by simpa using ha, hp⟩
          exact Nat.lt_of_lt_of_le hh (Nat.le_add_right _ _)

/-- Unfolding of `sameKeyIdxB`. -/
theorem sameKeyIdxB_iff (root : List definition_t) (j m : Nat) :
    sameKeyIdxB root j m = true ↔
      ∃ a b, root.get? j = some a ∧ root.get? m = some b ∧
        a.type = b.type ∧ a.inst = b.inst := by
  unfold sameKeyIdxB
  cases hj : root.get? j with
  | none => simp
  | some a =>
    cases hm : root.get? m with
    | none => simp
    | some b => simp

/-- Unfolding of `MBb`. -/
theorem MBb_true_iff (root : List definition_t) (k m : Nat) :
    MBb root k m = true ↔ ∃ j, j < min m k ∧ sameKeyIdxB root j m = true := by
  simp [MBb]

/-- Unfolding of `beyondFirstB`. -/
theorem beyondFirstB_true_iff (root : List definition_t) (m : Nat) :
    beyondFirstB root m = true ↔
      ∃ j, j < m ∧ sameKeyIdxB root j m = true := by
  simp [beyondFirstB]

/-- Before any statement is processed, nothing is flagged. -/
theorem MBb_zero (root : List definition_t) (m : Nat) : MBb root 0 m = false := by
  simp [MBb]

/-- After processing position `k` itself, the flag at `k` coincides with
being an occurrence beyond the first. -/
theorem MBb_succ_self (root : List definition_t) (k : Nat) :
    MBb root (k + 1) k = beyondFirstB root k := by
  simp [MBb, beyondFirstB, Nat.min_eq_left (Nat.le_succ k)]

/-- While processing position `k`, the flag at `k` reads the same as the
beyond-first predicate. -/
theorem MBb_self (root : List definition_t) (k : Nat) :
    MBb root k k = beyondFirstB root k := by
  simp [MBb, beyondFirstB]

/-- How the accumulated flag grows when statement `k` is processed: position
`m` additionally becomes flagged when it shares `k`'s key and some match of
that key precedes it. -/
theorem MBb_succ (root : List definition_t) (k m : Nat) (dk e : definition_t)
    (hk : root.get? k = some dk) (hm : root.get? m = some e) :
    (MBb root (k + 1) m = true ↔ MBb root k m = true ∨
      ((e.type = dk.type ∧ e.inst = dk.inst) ∧
        0 < (root.take m).countP (kmB dk.type dk.inst))) := by
  rw [MBb_true_iff, MBb_true_iff, take_countP_pos]
  constructor
  · rintro ⟨j, hj, hsk⟩
    by_cases hjk : j < min m k
    · exact Or.inl ⟨j, hjk, hsk⟩
    · have hkm : k < m := by omega
      have hjk2 : j = k := by omega
      subst hjk2
      rw [sameKeyIdxB_iff] at hsk
      obtain ⟨a, b, ha, hb, ht, hi⟩ := hsk
      rw [hk] at ha
      rw [hm] at hb
      cases ha
      cases hb
      refine Or.inr ⟨⟨ht.symm, hi.symm⟩, j, hkm, dk, hk, ?_⟩
      simp [kmB]
  · rintro (⟨j, hj, hsk⟩ | ⟨⟨ht, hi⟩, j, hjm, a, ha, hpa⟩)
    · exact ⟨j, by omega, hsk⟩
    · have hpa2 : a.type = dk.type ∧ a.inst = dk.inst := by
        simpa [kmB] using hpa
      by_cases hkm : k < m
      · refine ⟨k, by omega, ?_⟩
        rw [sameKeyIdxB_iff]
        exact ⟨dk, e, hk, hm, ht.symm, hi.symm⟩
      · refine ⟨j, by omega, ?_⟩
        rw [sameKeyIdxB_iff]
        exact ⟨a, e, ha, hm, by rw [hpa2.1, ht], by rw [hpa2.2, hi]⟩

/-- Processing statement `k` turns the flags accumulated through step `k`
into the flags accumulated through step `k + 1`. -/
theorem dupStep_list (root : List definition_t) (k : Nat) (dk : definition_t)
    (hk : root.get? k = some dk) :
    markFlags (MBb root k) 0 (markDups dk.type dk.inst 0 root) =
      markFlags (MBb root (k + 1)) 0 root := by
  apply List.ext
  intro m
  rw [markFlags_get?, markFlags_get?, markDups_get?]
  cases hm : root.get? m with
  | none => simp
  | some e =>
    simp only [Option.map_some', Nat.zero_add]
    have hsucc := MBb_succ root k m dk e hk hm
    by_cases h1 : MBb root k m = true
    · have h2 : MBb root (k + 1) m = true := hsucc.mpr (Or.inl h1)
      simp only [h1, h2, if_true]
      by_cases hc : (e.type = dk.type ∧ e.inst = dk.inst) ∧
          0 < (root.take m).countP (kmB dk.type dk.inst)
      · rw [if_pos hc]
        rfl
      · rw [if_neg hc]
    · have h1f : MBb root k m = false := Bool.eq_false_iff.mpr h1
      by_cases hc : (e.type = dk.type ∧ e.inst = dk.inst) ∧
          0 < (root.take m).countP (kmB dk.type dk.inst)
      · have h2 : MBb root (k + 1) m = true := hsucc.mpr (Or.inr hc)
        simp only [h1f, h2, if_true, Bool.false_eq_true, if_false,
          if_pos hc]
      · have h2 : MBb root (k + 1) m = false := by
          cases hx : MBb root (k + 1) m with
          | false => rfl
          | true =>
            rcases hsucc.mp hx with h | h
            · exact absurd h h1
            · exact absurd h hc
        simp only [h1f, h2, Bool.false_eq_true, if_false, if_neg hc]

/-- A flag added later does not change flags at already-fixed positions. -/
theorem MBb_stable (root : List definition_t) (k m : Nat) (h : m ≤ k) :
    MBb root (k + 1) m = MBb root k m := by
  unfold MBb
  rw [Nat.min_eq_left (by omega), Nat.min_eq_left (by omega)]

/-- Invariant of the duplicate pass: after processing the first `k`
statements the error count equals the number of first occurrences of
duplicated keys among them, and the statement list carries exactly the
accumulated duplicate flags. -/
theorem dupFold_inv (root : List definition_t)
    (hflags : ∀ d ∈ root, d.duplicate = false) :
    ∀ k, (List.range k).foldl dupCheckStep (0, root) =
      ((List.range k).countP (dupErrAtB root),
        markFlags (MBb root k) 0 root) := by
  intro k
  induction k with
  | zero =>
    simp only [List.range_zero, List.foldl_nil, List.countP_nil]
    rw [markFlags_false (MBb root 0) root 0 (fun m => MBb_zero root m)]
  | succ k ih =>
    rw [List.range_succ, List.foldl_append, List.countP_append, ih]
    simp only [List.foldl_cons, List.foldl_nil, List.countP_cons,
      List.countP_nil]
    cases hk : root.get? k with
    | none =>
      have hcur : (markFlags (MBb root k) 0 root).get? k = none := by
        rw [markFlags_get?, hk]
        rfl
      have herr : dupErrAtB root k = false := by
        unfold dupErrAtB
        rw [hk]
      have hlen : root.length ≤ k := List.get?_eq_none.mp hk
      have hflageq : markFlags (MBb root k) 0 root =
          markFlags (MBb root (k + 1)) 0 root := by
        apply markFlags_congr
        intro m hm
        exact (MBb_stable root k (0 + m) (by omega)).symm
      simp only [dupCheckStep]
      rw [hcur]
      simp [herr, hflageq]
    | some dk =>
      have hmem : dk ∈ root := List.get?_mem hk
      have hdup : dk.duplicate = false := hflags dk hmem
      have hcur : (markFlags (MBb root k) 0 root).get? k =
          some (if beyondFirstB root k then dupMark dk else dk) := by
        rw [markFlags_get?, hk]
        simp only [Option.map_some', Nat.zero_add, MBb_self]
      have hdt : (if beyondFirstB root k then dupMark dk else dk).type =
          dk.type := by
        by_cases h : beyondFirstB root k = true <;> simp [h, dupMark]
      have hdi : (if beyondFirstB root k then dupMark dk else dk).inst =
          dk.inst := by
        by_cases h : beyondFirstB root k = true <;> simp [h, dupMark]
      have h1 : (checker_count_definition (markFlags (MBb root k) 0 root)
          dk.type dk.inst).1 = root.countP (kmB dk.type dk.inst) := by
        unfold checker_count_definition
        rw [countDefGo_fst]
        rw [markFlags_countP (MBb root k) (kmB dk.type dk.inst)
          (fun d => rfl)]
        omega
      have h2 : (checker_count_definition (markFlags (MBb root k) 0 root)
          dk.type dk.inst).2 = markFlags (MBb root (k + 1)) 0 root := by
        unfold checker_count_definition
        rw [countDefGo_snd]
        rw [markDups_markFlags_comm]
        exact dupStep_list root k dk hk
      have hcur2 : (markFlags (MBb root (k + 1)) 0 root).get? k =
          some (if beyondFirstB root k then dupMark dk else dk) := by
        rw [markFlags_get?, hk]
        simp only [Option.map_some', Nat.zero_add, MBb_succ_self]
      have hCpos : 0 < root.countP (kmB dk.type dk.inst) := by
        rw [List.countP_pos]
        exact ⟨dk, hmem, by simp [kmB]⟩
      have herr : dupErrAtB root k =
          (decide (2 ≤ root.countP (kmB dk.type dk.inst)) &&
            ! beyondFirstB root k) := by
        unfold dupErrAtB
        rw [hk]
      simp only [dupCheckStep]
      rw [hcur]
      dsimp only
      rw [hdt, hdi, h2, hcur2]
      dsimp only
      rw [h1, herr]
      simp only [Prod.mk.injEq]
      refine ⟨?_, trivial⟩
      by_cases hb : beyondFirstB root k = true
      · have hd1 : (if beyondFirstB root k then dupMark dk else dk).duplicate =
            true := by simp [hb, dupMark]
        rw [if_neg (by
          rintro ⟨_, hfalse⟩
          rw [hd1] at hfalse
          exact Bool.noConfusion hfalse)]
        simp [hb]
      · have hbf : beyondFirstB root k = false := Bool.eq_false_iff.mpr hb
        have hd1 : (if beyondFirstB root k then dupMark dk else dk).duplicate =
            false := by simp [hbf, hdup]
        by_cases hC : 2 ≤ root.countP (kmB dk.type dk.inst)
        · rw [if_pos ⟨by omega, hd1⟩]
          simp [hC, hbf]
        · rw [if_neg (by
            rintro ⟨hne, _⟩
            exact hne (by omega))]
          simp [hbf, hC]

/-- Sharing a key is symmetric. -/
theorem sameKeyIdxB_symm (root : List definition_t) (j m : Nat) :
    sameKeyIdxB root j m = sameKeyIdxB root m j := by
  rw [Bool.eq_iff_iff, sameKeyIdxB_iff, sameKeyIdxB_iff]
  constructor
  · rintro ⟨a, b, ha, hb, t, i⟩
    exact ⟨b, a, hb, ha, t.symm, i.symm⟩
  · rintro ⟨a, b, ha, hb, t, i⟩
    exact ⟨b, a, hb, ha, t.symm, i.symm⟩

/-- Sharing a key is transitive. -/
theorem sameKeyIdxB_trans (root : List definition_t) (i j k : Nat)
    (h1 : sameKeyIdxB root i j = true) (h2 : sameKeyIdxB root j k = true) :
    sameKeyIdxB root i k = true := by
  rw [sameKeyIdxB_iff] at h1 h2 ⊢
  obtain ⟨a, b, ha, hb, t1, i1⟩ := h1
  obtain ⟨b2, c, hb2, hc, t2, i2⟩ := h2
  rw [hb] at hb2
  cases hb2
  exact ⟨a, c, ha, hc, t1.trans t2, i1.trans i2⟩

/-- Unfolding of `dupErrAtB`. -/
theorem dupErrAtB_true_iff (root : List definition_t) (k : Nat) :
    dupErrAtB root k = true ↔ ∃ d, root.get? k = some d ∧
      2 ≤ root.countP (kmB d.type d.inst) ∧ beyondFirstB root k = false := by
  unfold dupErrAtB
  cases hk : root.get? k with
  | none => simp
  | some d => simp

/-- C8: in the duplicate pass of `netlist_checker_intern`, on a netlist whose
statements start unflagged, (a) a statement is flagged as duplicate exactly
when an earlier statement shares its (type, instance) key — i.e. every
occurrence beyond the first is marked and nothing else changes; (b) the
accumulated error count is the number of positions that hold the FIRST
occurrence of a key occurring at least twice; (c) at most one position per
shared key raises the error; and (d) every key occurring at least twice
raises it at some position that shares the key, is its first occurrence and
remains unmarked.  So the duplicate-definition error is reported exactly
once per duplicated (type, instance) pair, at the unmarked first
occurrence. -/
theorem claim_C8 (root : List definition_t)
    (hflags : ∀ d ∈ root, d.duplicate = false) :
    (∀ m, (dupCheckFold root).2.get? m =
      (root.get? m).map
        (fun d => if beyondFirstB root m then dupMark d else d)) ∧
    (dupCheckFold root).1 =
      (List.range root.length).countP (dupErrAtB root) ∧
    (∀ k1 k2, dupErrAtB root k1 = true → dupErrAtB root k2 = true →
      sameKeyIdxB root k1 k2 = true → k1 = k2) ∧
    (∀ k dk, root.get? k = some dk →
      2 ≤ root.countP (kmB dk.type dk.inst) →
      ∃ j, sameKeyIdxB root j k = true ∧ dupErrAtB root j = true ∧
        beyondFirstB root j = false) := by
  have hinv := dupFold_inv root hflags root.length
  refine ⟨?_, ?_, ?_, ?_⟩
  · intro m
    unfold dupCheckFold
    rw [hinv]
    show (markFlags (MBb root root.length) 0 root).get? m = _
    rw [markFlags_get?]
    simp only [Nat.zero_add]
    cases hm : root.get? m with
    | none => simp
    | some d =>
      have hmlen : m < root.length := by
        by_contra hge
        rw [List.get?_eq_none.mpr (by omega)] at hm
        cases hm
      have hmb : MBb root root.length m = beyondFirstB root m := by
        unfold MBb beyondFirstB
        rw [Nat.min_eq_left (by omega)]
      rw [hmb]
  · unfold dupCheckFold
    rw [hinv]
  · intro k1 k2 h1 h2 hsk
    rcases Nat.lt_trichotomy k1 k2 with h | h | h
    · exfalso
      obtain ⟨d2, hk2, _, hbf2⟩ := (dupErrAtB_true_iff _ _).mp h2
      have hb2 : beyondFirstB root k2 = true :=
        (beyondFirstB_true_iff _ _).mpr ⟨k1, h, hsk⟩
      rw [hbf2] at hb2
      cases hb2
    · exact h
    · exfalso
      obtain ⟨d1, hk1, _, hbf1⟩ := (dupErrAtB_true_iff _ _).mp h1
      have hb1 : beyondFirstB root k1 = true :=
        (beyondFirstB_true_iff _ _).mpr
          ⟨k2, h, by rw [sameKeyIdxB_symm]; exact hsk⟩
      rw [hbf1] at hb1
      cases hb1
  · intro k dk hk hC
    have hself : sameKeyIdxB root k k = true := by
      rw [sameKeyIdxB_iff]
      exact ⟨dk, dk, hk, hk, rfl, rfl⟩
    have hex : ∃ j, sameKeyIdxB root j k = true := ⟨k, hself⟩
    have hj0 : sameKeyIdxB root (Nat.find hex) k = true := Nat.find_spec hex
    have hmin : ∀ i, i < Nat.find hex → ¬ sameKeyIdxB root i k = true :=
      fun i hi => Nat.find_min hex hi
    obtain ⟨a, b, ha, hb, hta, hia⟩ := (sameKeyIdxB_iff _ _ _).mp hj0
    rw [hk] at hb
    cases hb
    have hkm : kmB a.type a.inst = kmB dk.type dk.inst := by
      unfold kmB
      rw [hta, hia]
    have hbf : beyondFirstB root (Nat.find hex) = false := by
      cases hx : beyondFirstB root (Nat.find hex) with
      | false => rfl
      | true =>
        obtain ⟨i, hi, hski⟩ := (beyondFirstB_true_iff _ _).mp hx
        exact absurd (sameKeyIdxB_trans root i (Nat.find hex) k hski hj0)
          (hmin i hi)
    have herr : dupErrAtB root (Nat.find hex) = true := by
      rw [dupErrAtB_true_iff]
      exact ⟨a, ha, by rw [hkm]; exact hC, hbf⟩
    exact ⟨Nat.find hex, hj0, herr, hbf⟩

/-- Fixture for C8: two statements sharing key (R, R1) around an unrelated
capacitor. -/
def c8Root : List definition_t :=
  [mkStmt "R" "R1" ["a", "b"] [] [],
   mkStmt "C" "C1" ["b", "c"] [] [],
   mkStmt "R" "R1" ["c", "d"] [] []]

/-- Witness: `claim_C8` applied to the concrete three-statement netlist with
one duplicated (type, instance) pair. -/
theorem claim_C8_witness :
    (∀ d ∈ c8Root, d.duplicate = false) ∧
    ((∀ m, (dupCheckFold c8Root).2.get? m =
      (c8Root.get? m).map
        (fun d => if beyondFirstB c8Root m then dupMark d else d)) ∧
    (dupCheckFold c8Root).1 =
      (List.range c8Root.length).countP (dupErrAtB c8Root) ∧
    (∀ k1 k2, dupErrAtB c8Root k1 = true → dupErrAtB c8Root k2 = true →
      sameKeyIdxB c8Root k1 k2 = true → k1 = k2) ∧
    (∀ k dk, c8Root.get? k = some dk →
      2 ≤ c8Root.countP (kmB dk.type dk.inst) →
      ∃ j, sameKeyIdxB c8Root j k = true ∧ dupErrAtB c8Root j = true ∧
        beyondFirstB c8Root j = false)) :=
  ⟨by decide, claim_C8 c8Root (by decide)⟩

/-! Claim C3: the DC-action requirements of the action check and the
gating of the nonlinearity count. -/

/-- Modelled from the spec (claim C3): nonlinearity counting as the claim
reads it, recursion into a referenced template gated by whether cycle
detection finds cycles for THAT template (re-running the cycle check on the
template and recursing exactly when it reports no error). -/
def checker_count_nonlinearities_spec (registry : List definition_t)
    (cfuel : Nat) : Nat → List definition_t → Option Nat
  | _, [] => some 0
  | 0, _ :: _ => none
  | fuel + 1, d :: ds =>
    let c1 := if d.nonlinear ≠ 0 then 1 else 0
    let c2? : Option Nat :=
      if d.type = "Sub" then
        match checker_get_subcircuit registry d with
        | some sub =>
          match checker_validate_sub_cycles registry cfuel sub sub.inst
              d.inst [] with
          | none => none
          | some (err, _) =>
            if err = 0 then
              checker_count_nonlinearities_spec registry cfuel fuel sub.sub
            else some 0
        | none => some 0
      else some 0
    match c2?, checker_count_nonlinearities_spec registry cfuel fuel ds with
    | some a, some b => some (c1 + a + b)
    | _, _ => none

/-- With a positive global cycle flag the code's nonlinearity count never
recurses anywhere: it degenerates to counting the nonlinear statements of
the top-level list alone, whatever the registry holds. -/
theorem count_nonlinearities_flagged (registry : List definition_t)
    (flag : Int) (hflag : 1 ≤ flag) :
    ∀ (root : List definition_t) (fuel : Nat), root.length ≤ fuel →
    checker_count_nonlinearities registry flag fuel root =
      some (root.countP (fun d => decide (d.nonlinear ≠ 0))) := by
  intro root
  induction root with
  | nil =>
    intro fuel _
    cases fuel <;> rfl
  | cons d ds ih =>
    intro fuel hlen
    cases fuel with
    | zero =>
      exfalso
      simp at hlen
    | succ f =>
      unfold checker_count_nonlinearities
      have hnot : ¬ ((flag ≤ 0) ∧ d.type = "Sub") := by
        rintro ⟨h0, _⟩
        omega
      rw [if_neg hnot, ih f (by simpa using Nat.le_of_succ_le_succ hlen)]
      simp only [List.countP_cons]
      by_cases hnl : d.nonlinear ≠ 0
      · simp [hnl]
        omega
      · simp [hnl]

/-- Fixture (C3): template `A`, instantiating itself (a cyclic template). -/
def c3TmplA : definition_t := mkStmt "Def" "A" ["a"] [] [subInst "iA" "A" ["a"]]

/-- Fixture (C3): template `B`, acyclic, containing one nonlinear diode. -/
def c3TmplB : definition_t :=
  mkStmt "Def" "B" ["b"] []
    [{ mkStmt "D" "D1" ["b", "gnd"] [] [] with nonlinear := 1 }]

/-- Fixture (C3): the template registry holding `A` and `B`. -/
def c3Registry : List definition_t := [c3TmplA, c3TmplB]

/-- Fixture (C3): a well-formed linear-sweep AC action. -/
def c3AC : definition_t :=
  { mkStmt "AC" "AC1" [] [mkIdentPair "Type" "lin", mkNumPair "Start" 1,
      mkNumPair "Stop" 2, mkNumPair "Points" 3] [] with action := 1 }

/-- Fixture (C3): an instance of acyclic `B`, then an instance of cyclic
`A`, then the AC action — no DC action anywhere. -/
def c3Main : List definition_t :=
  [subInst "i1" "B" ["n1"], subInst "i2" "A" ["n2"], c3AC]

/-- Claim C3, counterexample to the per-template gating: the subcircuit
validation of this netlist leaves the global cycle flag at 1 (the value
from its LAST instance, of cyclic `A`), whereupon the action check accepts
the netlist with zero errors — although it has an AC analysis, no DC
action, and the claim's per-template-gated count still sees the
nonlinearity inside the acyclic template `B`, so the claim demands the
missing-DC error. -/
theorem claim_C3_counterexample :
    (checker_validate_subcircuits c3Registry 5 c3Main 0).map Prod.snd =
      some 1 ∧
    (checker_validate_actions (fun _ => 1) c3Registry 1 5 c3Main).map
      Prod.fst = some 0 ∧
    checker_count_nonlinearities_spec c3Registry 5 5 c3Main = some 1 ∧
    checker_count_definitions c3Main (some "SP") 1 +
      checker_count_definitions c3Main (some "AC") 1 = 1 ∧
    checker_count_definitions c3Main (some "DC") 1 = 0 :=
  ⟨rfl, rfl, rfl, rfl, rfl⟩

/-- Claim C3 (amended): the action check errors on more than one DC action,
and errors when an AC/SP analysis coexists with a nonlinearity counted by
`checker_count_nonlinearities` under the GLOBAL stale cycle flag — the
flag left behind by the cycle check of the last validated subcircuit
instance, not a per-template result; whenever that flag is positive the
count ignores subcircuit bodies entirely. -/
theorem claim_C3 (tenPow : ℚ → ℚ) (registry : List definition_t)
    (flag : Int) (fuel : Nat) (root : List definition_t) (e : Nat)
    (l : List definition_t)
    (h : checker_validate_actions tenPow registry flag fuel root =
      some (e, l)) :
    (1 < checker_count_definitions root (some "DC") 1 → 1 ≤ e) ∧
    (∀ c, 1 ≤ checker_count_definitions root (some "SP") 1 +
        checker_count_definitions root (some "AC") 1 →
      checker_count_nonlinearities registry flag fuel root = some c →
      1 ≤ c → checker_count_definitions root (some "DC") 1 = 0 → 1 ≤ e) ∧
    (1 ≤ flag → root.length ≤ fuel →
      checker_count_nonlinearities registry flag fuel root =
        some (root.countP (fun d => decide (d.nonlinear ≠ 0)))) := by
  refine ⟨?_, ?_, fun hf hlen => count_nonlinearities_flagged registry flag
    hf root fuel hlen⟩
  · intro hdc
    have hge : 1 ≤ checker_count_definitions root none 1 := by
      have hmono : checker_count_definitions root (some "DC") 1 ≤
          checker_count_definitions root none 1 := by
        unfold checker_count_definitions
        apply List.countP_mono_left
        intro d _ hd
        rw [Bool.and_eq_true] at hd
        simp [hd.1]
      omega
    unfold checker_validate_actions at h
    rw [if_neg (by omega)] at h
    cases hc : checker_count_nonlinearities registry flag fuel root with
    | none =>
      rw [hc] at h
      simp [Option.bind] at h
    | some c =>
      rw [hc] at h
      cases hp : checker_validate_para root fuel with
      | none =>
        rw [hp] at h
        simp [Option.bind] at h
      | some e2 =>
        rw [hp] at h
        cases hl : checker_validate_lists tenPow root with
        | none =>
          rw [hl] at h
          simp [Option.bind] at h
        | some r =>
          rw [hl] at h
          simp only [Option.bind_eq_bind, Option.some_bind,
            Option.some.injEq, Prod.mk.injEq] at h
          have he := h.1
          rw [if_pos hdc] at he
          omega
  · intro c ha hc hcpos hdc
    have hge : 1 ≤ checker_count_definitions root none 1 := by
      have hmono : checker_count_definitions root (some "AC") 1 ≤
          checker_count_definitions root none 1 := by
        unfold checker_count_definitions
        apply List.countP_mono_left
        intro d _ hd
        rw [Bool.and_eq_true] at hd
        simp [hd.1]
      have hmono2 : checker_count_definitions root (some "SP") 1 ≤
          checker_count_definitions root none 1 := by
        unfold checker_count_definitions
        apply List.countP_mono_left
        intro d _ hd
        rw [Bool.and_eq_true] at hd
        simp [hd.1]
      by_cases hsp : 1 ≤ checker_count_definitions root (some "SP") 1
      · omega
      · have : 1 ≤ checker_count_definitions root (some "AC") 1 := by omega
        omega
    unfold checker_validate_actions at h
    rw [if_neg (by omega)] at h
    rw [hc] at h
    cases hp : checker_validate_para root fuel with
    | none =>
      rw [hp] at h
      simp [Option.bind] at h
    | some e2 =>
      rw [hp] at h
      cases hl : checker_validate_lists tenPow root with
      | none =>
        rw [hl] at h
        simp [Option.bind] at h
      | some r =>
        rw [hl] at h
        simp only [Option.bind_eq_bind, Option.some_bind,
          Option.some.injEq, Prod.mk.injEq] at h
        have he := h.1
        rw [if_pos (show 1 ≤ checker_count_definitions root (some "SP") 1 +
            checker_count_definitions root (some "AC") 1 ∧
            1 ≤ c ∧ checker_count_definitions root (some "DC") 1 < 1 from
          ⟨ha, hcpos, by omega⟩)] at he
        omega

/-- Claim C3, witness: on the C3 fixture with the stale flag the amended
theorem applies; its flag-degeneration conjunct evaluates on the concrete
netlist. -/
theorem claim_C3_witness :
    checker_validate_actions (fun _ => 1) c3Registry 1 5 c3Main =
      some (0, c3Main) ∧
    ((1 < checker_count_definitions c3Main (some "DC") 1 → 1 ≤ 0) ∧
    (∀ c, 1 ≤ checker_count_definitions c3Main (some "SP") 1 +
        checker_count_definitions c3Main (some "AC") 1 →
      checker_count_nonlinearities c3Registry 1 5 c3Main = some c →
      1 ≤ c → checker_count_definitions c3Main (some "DC") 1 = 0 → 1 ≤ 0) ∧
    (1 ≤ (1 : Int) → c3Main.length ≤ 5 →
      checker_count_nonlinearities c3Registry 1 5 c3Main =
        some (c3Main.countP (fun d => decide (d.nonlinear ≠ 0))))) :=
  ⟨rfl, claim_C3 (fun _ => 1) c3Registry 1 5 c3Main 0 c3Main rfl⟩

/-! Claim C2: subcircuit cycle detection. -/

/-- The template names referenced by the `Sub` statements of a body, in
scan order — exactly the identifiers `subCyclesLoopF` recurses on. -/
def bodyIdents (body : List definition_t) : List String :=
  body.filterMap (fun d =>
    if d.type = "Sub" then
      (checker_find_reference d "Type").bind (fun v => v.ident)
    else none)

/-- One instantiation edge of the template graph: template `t` resolves in
the registry and its body references template name `u`. -/
def subEdge (registry : List definition_t) (t u : String) : Prop :=
  ∃ T, checker_find_subcircuit registry (some t) = some T ∧
    u ∈ bodyIdents T.sub

/-- Instantiation reachability (reflexive-transitive closure). -/
def subReach (registry : List definition_t) : String → String → Prop :=
  Relation.ReflTransGen (subEdge registry)

/-- Template `u` lies on an instantiation cycle. -/
def subCyclic (registry : List definition_t) (u : String) : Prop :=
  Relation.TransGen (subEdge registry) u u

/-- The recursion of `checker_validate_sub_cycles`, as a relation: from
dependency stack `deps`, template `t` either is already on the stack or
steps along a fresh edge with `t` pushed. -/
inductive Bad (registry : List definition_t) : List String → String → Prop
  | hit (deps : List String) (t : String) (h : t ∈ deps) :
      Bad registry deps t
  | step (deps : List String) (t : String) (T : definition_t) (u : String)
      (hnot : t ∉ deps)
      (hT : checker_find_subcircuit registry (some t) = some T)
      (hu : u ∈ bodyIdents T.sub)
      (hbad : Bad registry (deps ++ [t]) u) : Bad registry deps t

/-- A registry lookup returns a template carrying the looked-up name. -/
theorem find_subcircuit_inst (registry : List definition_t) (n : String)
    (T : definition_t) (h : checker_find_subcircuit registry (some n) = some T) :
    T.inst = n := by
  unfold checker_find_subcircuit at h
  have hp := List.find?_some h
  simpa using hp

/-- The cycle-scan loop never decreases the error count. -/
theorem subCyclesLoopF_mono
    (recur : definition_t → String → List String → Option (Nat × List String))
    (registry : List definition_t) (iName : String) :
    ∀ (body : List definition_t) (deps checked : List String)
      (errors E : Nat) (deps' : List String),
    subCyclesLoopF recur registry iName body deps checked errors =
      some (E, deps') → errors ≤ E := by
  intro body
  induction body with
  | nil =>
    intro deps checked errors E deps' h
    unfold subCyclesLoopF at h
    simp only [Option.some.injEq, Prod.mk.injEq] at h
    omega
  | cons d ds ih =>
    intro deps checked errors E deps' h
    unfold subCyclesLoopF at h
    by_cases hSub : d.type = "Sub"
    · rw [if_pos hSub] at h
      cases href : checker_find_reference d "Type" with
      | none =>
        rw [href] at h
        exact ih _ _ _ _ _ h
      | some val =>
        rw [href] at h
        dsimp only at h
        cases hid : val.ident with
        | none =>
          rw [hid] at h
          exact ih _ _ _ _ _ h
        | some ident =>
          rw [hid] at h
          dsimp only at h
          by_cases hchk : ident ∈ checked
          · rw [if_pos hchk] at h
            exact ih _ _ _ _ _ h
          · rw [if_neg hchk] at h
            cases hfind : checker_find_subcircuit registry (some ident) with
            | none =>
              rw [hfind] at h
              cases h
            | some sub =>
              rw [hfind] at h
              dsimp only at h
              cases hrec : recur sub sub.inst deps with
              | none =>
                rw [hrec] at h
                cases h
              | some p =>
                rw [hrec] at h
                obtain ⟨error, depsAfter⟩ := p
                dsimp only at h
                by_cases herr : error ≠ 0
                · rw [if_pos herr] at h
                  have := ih _ _ _ _ _ h
                  omega
                · rw [if_neg herr] at h
                  exact ih _ _ _ _ _ h
    · rw [if_neg hSub] at h
      exact ih _ _ _ _ _ h

/-- Specification of the cycle-scan loop: assuming the recursive callback
decides `Bad` and restores the stack on success, the loop reports an error
exactly when it started with one or some fresh referenced template is `Bad`
from the current stack, and on success it hands the stack back untouched. -/
theorem subCyclesLoopF_spec (registry : List definition_t) (iName : String)
    (recur : definition_t → String → List String → Option (Nat × List String))
    (hrecur : ∀ (sub : definition_t) (t : String) (deps2 : List String)
      (e2 : Nat) (deps2' : List String),
      checker_find_subcircuit registry (some t) = some sub →
      recur sub t deps2 = some (e2, deps2') →
      ((1 ≤ e2 ↔ Bad registry deps2 t) ∧ (e2 = 0 → deps2' = deps2 ++ [t]))) :
    ∀ (body : List definition_t) (deps checked : List String)
      (errors E : Nat) (deps' : List String),
    subCyclesLoopF recur registry iName body deps checked errors =
      some (E, deps') →
    ((1 ≤ E) ↔ (1 ≤ errors ∨
      ∃ u, u ∈ bodyIdents body ∧ u ∉ checked ∧ Bad registry deps u)) ∧
    (E = 0 → deps' = deps) := by
  intro body
  induction body with
  | nil =>
    intro deps checked errors E deps' h
    unfold subCyclesLoopF at h
    simp only [Option.some.injEq, Prod.mk.injEq] at h
    obtain ⟨hE, hd⟩ := h
    subst hE
    subst hd
    constructor
    · simp [bodyIdents]
    · intro _
      rfl
  | cons d ds ih =>
    intro deps checked errors E deps' h
    unfold subCyclesLoopF at h
    by_cases hSub : d.type = "Sub"
    · rw [if_pos hSub] at h
      cases href : checker_find_reference d "Type" with
      | none =>
        rw [href] at h
        have hb : bodyIdents (d :: ds) = bodyIdents ds := by
          simp [bodyIdents, hSub, href]
        rw [hb]
        exact ih _ _ _ _ _ h
      | some val =>
        rw [href] at h
        dsimp only at h
        cases hid : val.ident with
        | none =>
          rw [hid] at h
          have hb : bodyIdents (d :: ds) = bodyIdents ds := by
            simp [bodyIdents, hSub, href, hid]
          rw [hb]
          exact ih _ _ _ _ _ h
        | some ident =>
          rw [hid] at h
          dsimp only at h
          have hb : bodyIdents (d :: ds) = ident :: bodyIdents ds := by
            simp [bodyIdents, hSub, href, hid]
          rw [hb]
          by_cases hchk : ident ∈ checked
          · rw [if_pos hchk] at h
            obtain ⟨ih1, ih2⟩ := ih _ _ _ _ _ h
            refine ⟨?_, ih2⟩
            rw [ih1]
            refine or_congr Iff.rfl ?_
            constructor
            · rintro ⟨u, hu, hnc, hbad⟩
              exact ⟨u, List.mem_cons_of_mem _ hu, hnc, hbad⟩
            · rintro ⟨u, hu, hnc, hbad⟩
              rcases List.mem_cons.mp hu with rfl | hu2
              · exact absurd hchk hnc
              · exact ⟨u, hu2, hnc, hbad⟩
          · rw [if_neg hchk] at h
            cases hfind : checker_find_subcircuit registry (some ident) with
            | none =>
              rw [hfind] at h
              cases h
            | some sub =>
              rw [hfind] at h
              dsimp only at h
              cases hrec : recur sub sub.inst deps with
              | none =>
                rw [hrec] at h
                cases h
              | some p =>
                rw [hrec] at h
                obtain ⟨error, depsAfter⟩ := p
                dsimp only at h
                have hinst : sub.inst = ident :=
                  find_subcircuit_inst registry ident sub hfind
                rw [hinst] at hrec
                have hspec := hrecur sub ident deps error depsAfter hfind hrec
                by_cases herr : error ≠ 0
                · rw [if_pos herr] at h
                  have hE1 : 1 ≤ E := by
                    have := subCyclesLoopF_mono recur registry iName
                      _ _ _ _ _ _ h
                    omega
                  have hbadi : Bad registry deps ident :=
                    hspec.1.mp (by omega)
                  refine ⟨?_, fun he => absurd he (by omega)⟩
                  constructor
                  · intro _
                    exact Or.inr ⟨ident, List.mem_cons_self _ _, hchk, hbadi⟩
                  · intro _
                    exact hE1
                · rw [if_neg herr] at h
                  have herr0 : error = 0 := by omega
                  have hnotbad : ¬ Bad registry deps ident := by
                    intro hbad
                    have := hspec.1.mpr hbad
                    omega
                  obtain ⟨ih1, ih2⟩ := ih _ _ _ _ _ h
                  refine ⟨?_, ih2⟩
                  rw [ih1]
                  refine or_congr Iff.rfl ?_
                  constructor
                  · rintro ⟨u, hu, hnc1, hbad⟩
                    exact ⟨u, List.mem_cons_of_mem _ hu,
                      fun hc => hnc1 (List.mem_append_left _ hc), hbad⟩
                  · rintro ⟨u, hu, hnc, hbad⟩
                    rcases List.mem_cons.mp hu with rfl | hu2
                    · exact absurd hbad hnotbad
                    · refine ⟨u, hu2, ?_, hbad⟩
                      intro hc1
                      rcases List.mem_append.mp hc1 with hcc | hcc
                      · exact hnc hcc
                      · have : u = ident := by simpa using hcc
                        subst this
                        exact hnotbad hbad
    · rw [if_neg hSub] at h
      have hb : bodyIdents (d :: ds) = bodyIdents ds := by
        simp [bodyIdents, hSub]
      rw [hb]
      exact ih _ _ _ _ _ h

/-- Specification of `checker_validate_sub_cycles`: on any completed run it
reports an error exactly when the template is `Bad` from the given
dependency stack, and on success it returns the stack with the template
appended. -/
theorem validate_sub_cycles_spec (registry : List definition_t)
    (iName : String) :
    ∀ (fuel : Nat) (T : definition_t) (t : String) (deps : List String)
      (e : Nat) (deps' : List String),
    checker_find_subcircuit registry (some t) = some T →
    checker_validate_sub_cycles registry fuel T t iName deps =
      some (e, deps') →
    ((1 ≤ e ↔ Bad registry deps t) ∧ (e = 0 → deps' = deps ++ [t])) := by
  intro fuel
  induction fuel with
  | zero =>
    intro T t deps e deps' _ h
    cases h
  | succ f ih =>
    intro T t deps e deps' hT h
    unfold checker_validate_sub_cycles at h
    by_cases hmem : t ∈ deps
    · rw [if_pos hmem] at h
      simp only [Option.some.injEq, Prod.mk.injEq] at h
      obtain ⟨he, _⟩ := h
      subst he
      exact ⟨⟨fun _ => Bad.hit deps t hmem, fun _ => le_refl 1⟩,
        fun he0 => absurd he0 (by omega)⟩
    · rw [if_neg hmem] at h
      have hloop := subCyclesLoopF_spec registry iName
        (fun sub t2 deps2 =>
          checker_validate_sub_cycles registry f sub t2 iName deps2)
        (fun sub t2 deps2 e2 deps2' hf hr => ih sub t2 deps2 e2 deps2' hf hr)
        T.sub (deps ++ [t]) [] 0 e deps' h
      refine ⟨?_, hloop.2⟩
      rw [hloop.1]
      constructor
      · rintro (h0 | ⟨u, hu, _, hbad⟩)
        · exact absurd h0 (by omega)
        · exact Bad.step deps t T u hmem hT hu hbad
      · intro hbad
        cases hbad with
        | hit _ _ hmem2 => exact absurd hmem2 hmem
        | step _ _ T2 u hnot hT2 hu hbadu =>
          rw [hT] at hT2
          cases hT2
          exact Or.inr ⟨u, hu, List.not_mem_nil u, hbadu⟩

/-- Reaching a stacked template makes the current one `Bad`. -/
theorem Bad_of_reach_mem (registry : List definition_t) {t u : String}
    (h : subReach registry t u) :
    ∀ deps, u ∈ deps → Bad registry deps t := by
  induction h using Relation.ReflTransGen.head_induction_on with
  | refl =>
    intro deps hu
    exact Bad.hit deps u hu
  | head hedge _ ihm =>
    intro deps hu
    rename_i a c _
    by_cases hmem : a ∈ deps
    · exact Bad.hit deps a hmem
    · obtain ⟨T, hT, hc⟩ := hedge
      exact Bad.step deps a T c hmem hT hc
        (ihm (deps ++ [a]) (List.mem_append_left _ hu))

/-- Reaching a template on an instantiation cycle makes the current one
`Bad` from any stack. -/
theorem Bad_of_reach_cyclic (registry : List definition_t) {t u : String}
    (hr : subReach registry t u) (hc : subCyclic registry u) :
    ∀ deps, Bad registry deps t := by
  induction hr using Relation.ReflTransGen.head_induction_on with
  | refl =>
    intro deps
    by_cases hmem : u ∈ deps
    · exact Bad.hit deps u hmem
    · have hc2 : Relation.TransGen (subEdge registry) u u := hc
      obtain ⟨w, hw, htr⟩ := Relation.TransGen.head'_iff.mp hc2
      obtain ⟨T, hT, hmemT⟩ := hw
      exact Bad.step deps u T w hmem hT hmemT
        (Bad_of_reach_mem registry htr (deps ++ [u])
          (List.mem_append_right _ (by simp)))
  | head hedge _ ihm =>
    intro deps
    rename_i a c _
    by_cases hmem : a ∈ deps
    · exact Bad.hit deps a hmem
    · obtain ⟨T, hT, hmemT⟩ := hedge
      exact Bad.step deps a T c hmem hT hmemT (ihm (deps ++ [a]))

/-- `Bad` decomposes: it either reaches a template already on the stack or
reaches an instantiation cycle. -/
theorem Bad_characterization (registry : List definition_t) :
    ∀ (deps : List String) (t : String), Bad registry deps t →
    (∃ u, u ∈ deps ∧ subReach registry t u) ∨
    (∃ u, subReach registry t u ∧ subCyclic registry u) := by
  intro deps t h
  induction h with
  | hit deps t hmem =>
    exact Or.inl ⟨t, hmem, Relation.ReflTransGen.refl⟩
  | step deps t T u hnot hT hu hbad ihm =>
    have hedge : subEdge registry t u := ⟨T, hT, hu⟩
    rcases ihm with ⟨w, hw, hrw⟩ | ⟨w, hrw, hcw⟩
    · rcases List.mem_append.mp hw with hwdeps | hwt
      · exact Or.inl ⟨w, hwdeps, Relation.ReflTransGen.head hedge hrw⟩
      · have hwt2 : w = t := by simpa using hwt
        rw [hwt2] at hrw
        exact Or.inr ⟨t, Relation.ReflTransGen.refl,
          Relation.TransGen.head' hedge hrw⟩
    · exact Or.inr ⟨w, Relation.ReflTransGen.head hedge hrw, hcw⟩

/-- Claim C2: a completed run of the subcircuit cycle validation on a
registered template with an empty dependency stack reports an error
exactly when some template on an instantiation cycle is reachable from it
(in particular when it is reachable from itself, directly or transitively);
with an acyclic reachable instantiation graph — of any depth — it reports
no error. -/
theorem claim_C2 (registry : List definition_t) (iName : String)
    (fuel : Nat) (T : definition_t) (t : String) (e : Nat)
    (deps' : List String)
    (hT : checker_find_subcircuit registry (some t) = some T)
    (hrun : checker_validate_sub_cycles registry fuel T t iName [] =
      some (e, deps')) :
    1 ≤ e ↔ ∃ u, subReach registry t u ∧ subCyclic registry u := by
  have hs := validate_sub_cycles_spec registry iName fuel T t [] e deps'
    hT hrun
  rw [hs.1]
  constructor
  · intro hbad
    rcases Bad_characterization registry [] t hbad with ⟨w, hw, _⟩ | hg
    · simp at hw
    · exact hg
  · rintro ⟨u, hr, hc⟩
    exact Bad_of_reach_cyclic registry hr hc []

/-- Fixture (C2): an acyclic instantiation chain of depth 3,
`A → B → C → D`, `D` containing only a resistor. -/
def c2TmplD : definition_t :=
  mkStmt "Def" "D" ["d"] [] [mkStmt "R" "R1" ["d", "gnd"] [] []]

/-- Fixture (C2): template `C` instantiating `D`. -/
def c2TmplC : definition_t :=
  mkStmt "Def" "C" ["c"] [] [subInst "iD" "D" ["c"]]

/-- Fixture (C2): template `B` instantiating `C`. -/
def c2TmplB : definition_t :=
  mkStmt "Def" "B" ["b"] [] [subInst "iC" "C" ["b"]]

/-- Fixture (C2): template `A` instantiating `B`. -/
def c2TmplA : definition_t :=
  mkStmt "Def" "A" ["a"] [] [subInst "iB" "B" ["a"]]

/-- Fixture (C2): the registry of the depth-3 acyclic chain. -/
def c2Registry : List definition_t :=
  [c2TmplA, c2TmplB, c2TmplC, c2TmplD]

/-- Witness: on the concrete depth-3 acyclic chain the validation completes
with zero errors, and `claim_C2` turns that into the acyclicity
characterization. -/
theorem claim_C2_witness :
    checker_find_subcircuit c2Registry (some "A") = some c2TmplA ∧
    checker_validate_sub_cycles c2Registry 6 c2TmplA "A" "i1" [] =
      some (0, ["A"]) ∧
    (1 ≤ 0 ↔ ∃ u, subReach c2Registry "A" u ∧ subCyclic c2Registry u) :=
  ⟨rfl, rfl, claim_C2 c2Registry "i1" 6 c2TmplA "A" 0 ["A"] rfl rfl⟩

/-! Claim C1: exit code and expansion gating of the top-level checker. -/

/-- Claim C1: whenever the top-level checker completes, its result
decomposes into the four validation phases; the exit code is 0 exactly
when the accumulated error count of the phases is 0 and the negative
sentinel -1 otherwise, subcircuit expansion runs only in the zero-error
case, and on failure the statement list is handed back unexpanded (the
`checker_validate_actions` output, untouched by any expansion). -/
theorem claim_C1 (tenPow : ℚ → ℚ) (avail : List define_t) (fuel : Nat)
    (defs regs : List definition_t) (flag : Int) (code : Int)
    (g reg : List definition_t)
    (h : netlist_checker tenPow avail fuel defs regs flag =
      some (code, g, reg)) :
    ∃ (b : List definition_t × List definition_t) (e1 : Nat)
      (root1 : List definition_t) (flag1 : Int) (e2 : Nat)
      (reg1 : List definition_t) (flag2 : Int) (e3 : Nat)
      (reg2 : List definition_t) (flag3 : Int) (e4 : Nat)
      (root2 : List definition_t),
    checker_build_subcircuits fuel defs regs = some b ∧
    netlist_checker_intern tenPow avail b.2 fuel b.1 flag =
      some (e1, root1, flag1) ∧
    netlist_checker_intern tenPow avail b.2 fuel b.2 flag1 =
      some (e2, reg1, flag2) ∧
    (List.range reg1.length).foldlM
      (fun (st : Nat × List definition_t × Int) k =>
        match st.2.1.get? k with
        | none => some st
        | some tmpl =>
          (netlist_checker_intern tenPow avail st.2.1 fuel tmpl.sub
              st.2.2).map
            (fun (r : Nat × List definition_t × Int) =>
              (st.1 + r.1, modifyIdx (fun t => { t with sub := r.2.1 }) k
                st.2.1, r.2.2)))
      ((0 : Nat), reg1, flag2) = some (e3, reg2, flag3) ∧
    checker_validate_actions tenPow reg2 flag3 fuel root1 =
      some (e4, root2) ∧
    reg = reg2 ∧
    (e1 + e2 + e3 + e4 = 0 →
      code = 0 ∧ checker_expand_subcircuits reg2 fuel root2 = some g) ∧
    (e1 + e2 + e3 + e4 ≠ 0 → code = -1 ∧ g = root2) := by
  unfold netlist_checker at h
  cases hb : checker_build_subcircuits fuel defs regs with
  | none =>
    rw [hb] at h
    cases h
  | some b =>
    rw [hb] at h
    simp only [Option.bind_eq_bind, Option.some_bind] at h
    cases h1 : netlist_checker_intern tenPow avail b.2 fuel b.1 flag with
    | none =>
      rw [h1] at h
      cases h
    | some p1 =>
      rw [h1] at h
      obtain ⟨e1, root1, flag1⟩ := p1
      simp only [Option.some_bind] at h
      cases h2 : netlist_checker_intern tenPow avail b.2 fuel b.2 flag1 with
      | none =>
        rw [h2] at h
        cases h
      | some p2 =>
        rw [h2] at h
        obtain ⟨e2, reg1, flag2⟩ := p2
        simp only [Option.some_bind] at h
        cases h3 : (List.range reg1.length).foldlM
            (fun (st : Nat × List definition_t × Int) k =>
              match st.2.1.get? k with
              | none => some st
              | some tmpl =>
                (netlist_checker_intern tenPow avail st.2.1 fuel tmpl.sub
                    st.2.2).map
                  (fun (r : Nat × List definition_t × Int) =>
                    (st.1 + r.1, modifyIdx (fun t => { t with sub := r.2.1 })
                      k st.2.1, r.2.2)))
            ((0 : Nat), reg1, flag2) with
        | none =>
          rw [h3] at h
          cases h
        | some p3 =>
          rw [h3] at h
          obtain ⟨e3, reg2, flag3⟩ := p3
          simp only [Option.some_bind] at h
          cases h4 : checker_validate_actions tenPow reg2 flag3 fuel root1 with
          | none =>
            rw [h4] at h
            cases h
          | some p4 =>
            rw [h4] at h
            obtain ⟨e4, root2⟩ := p4
            simp only [Option.some_bind] at h
            refine ⟨b, e1, root1, flag1, e2, reg1, flag2, e3, reg2, flag3,
              e4, root2, rfl, h1, h2, h3, h4, ?_, ?_, ?_⟩
            · by_cases herr : e1 + e2 + e3 + e4 = 0
              · rw [if_pos herr] at h
                cases hexp : checker_expand_subcircuits reg2 fuel root2 with
                | none =>
                  rw [hexp] at h
                  cases h
                | some root3 =>
                  rw [hexp] at h
                  simp only [Option.some_bind, Option.some.injEq,
                    Prod.mk.injEq] at h
                  exact h.2.2.symm
              · rw [if_neg herr] at h
                simp only [Option.some.injEq, Prod.mk.injEq] at h
                exact h.2.2.symm
            · intro herr
              rw [if_pos herr] at h
              cases hexp : checker_expand_subcircuits reg2 fuel root2 with
              | none =>
                rw [hexp] at h
                cases h
              | some root3 =>
                rw [hexp] at h
                simp only [Option.some_bind, Option.some.injEq,
                  Prod.mk.injEq] at h
                exact ⟨h.1.symm, by rw [← h.2.1]⟩
            · intro herr
              rw [if_neg herr] at h
              simp only [Option.some.injEq, Prod.mk.injEq] at h
              exact ⟨h.1.symm, h.2.1.symm⟩

/-- Fixture (C1): catalog entry of a two-node resistor component without
required properties. -/
def c1AvailR : define_t := { type := "R", nodes := 2, action := 0 }

/-- Fixture (C1): catalog entry of a zero-node DC action. -/
def c1AvailDC : define_t := { type := "DC", nodes := 0, action := 1 }

/-- Fixture (C1): the two-entry catalog. -/
def c1Avail : List define_t := [c1AvailR, c1AvailDC]

/-- Fixture (C1): a resistor statement. -/
def c1R : definition_t := mkStmt "R" "R1" ["a", "b"] [] []

/-- Fixture (C1): a DC action statement. -/
def c1DC : definition_t := { mkStmt "DC" "DC1" [] [] [] with action := 1 }

/-- Fixture (C1): the error-free two-statement netlist. -/
def c1Defs : List definition_t := [c1R, c1DC]

/-- Fixture (C1): the netlist after checking — both statements annotated
with their catalog entry and node count. -/
def c1Out : List definition_t :=
  [{ c1R with define := some c1AvailR, ncount := 2 },
   { c1DC with define := some c1AvailDC, ncount := 0 }]

/-- Witness: the checker accepts the concrete error-free netlist with exit
code 0, and `claim_C1` decomposes that run. -/
theorem claim_C1_witness :
    netlist_checker (fun _ => 1) c1Avail 3 c1Defs [] 0 =
      some (0, c1Out, []) ∧
    (∃ (b : List definition_t × List definition_t) (e1 : Nat)
      (root1 : List definition_t) (flag1 : Int) (e2 : Nat)
      (reg1 : List definition_t) (flag2 : Int) (e3 : Nat)
      (reg2 : List definition_t) (flag3 : Int) (e4 : Nat)
      (root2 : List definition_t),
    checker_build_subcircuits 3 c1Defs [] = some b ∧
    netlist_checker_intern (fun _ => 1) c1Avail b.2 3 b.1 0 =
      some (e1, root1, flag1) ∧
    netlist_checker_intern (fun _ => 1) c1Avail b.2 3 b.2 flag1 =
      some (e2, reg1, flag2) ∧
    (List.range reg1.length).foldlM
      (fun (st : Nat × List definition_t × Int) k =>
        match st.2.1.get? k with
        | none => some st
        | some tmpl =>
          (netlist_checker_intern (fun _ => 1) c1Avail st.2.1 3 tmpl.sub
              st.2.2).map
            (fun (r : Nat × List definition_t × Int) =>
              (st.1 + r.1, modifyIdx (fun t => { t with sub := r.2.1 }) k
                st.2.1, r.2.2)))
      ((0 : Nat), reg1, flag2) = some (e3, reg2, flag3) ∧
    checker_validate_actions (fun _ => 1) reg2 flag3 3 root1 =
      some (e4, root2) ∧
    ([] : List definition_t) = reg2 ∧
    (e1 + e2 + e3 + e4 = 0 →
      (0 : Int) = 0 ∧ checker_expand_subcircuits reg2 3 root2 = some c1Out) ∧
    (e1 + e2 + e3 + e4 ≠ 0 → (0 : Int) = -1 ∧ c1Out = root2)) :=
  ⟨rfl, claim_C1 (fun _ => 1) c1Avail 3 c1Defs [] 0 0 c1Out [] rfl⟩

end Qucs
